import Mathlib

/-!
Shallow embedding of the `subtraceaggregator` OpenTelemetry collector
processor (`processor/subtraceaggregator/{processor,buffer,config}.go`).

Modelling conventions:
* pdata `pcommon.Value` is modelled by `AnyValue`; the typed accessors
  (`Str()`, `Bool()`, `Int()`, `Double()`) return the Go zero value when the
  value has a different type, exactly as pdata does.  Float64 is modelled by
  `ℚ` (all doubles appearing in the verified statements are exactly
  representable, and only order/equality of small values is used).
* pdata `pcommon.Map` is an insertion-ordered association list with unique
  keys (`Put*` replaces the first binding or appends).
* `pcommon.SpanID`/`pcommon.TraceID` appear in the Go code only through
  `.String()` (hex form, `""` for the all-zero id) and `.IsEmpty()`
  (equivalent to `.String() == ""`), so ids are modelled directly as their
  hex strings with `""` as the empty id.
* Go `map` state (`subtraceAssignment`, buffer `traces`) is an association
  list with replace-on-insert; Go map lookup of a missing key yields the
  zero value, modelled with `Option`.
* The recursive memoized `assignSpan` closure is modelled with explicit
  fuel; `none` models the unbounded recursion (stack overflow) that the Go
  code performs on parent-pointer cycles.  Fuel `spans.length + 1` is
  sufficient for every terminating run of the Go code, because a
  terminating descent visits pairwise-distinct unassigned spans.
* Resource and scope payloads of a buffered `SpanEntry` are not modelled:
  no verified statement depends on them (they are only copied verbatim into
  the output batch).
-/

namespace Subtrace

/-- pdata `pcommon.Value` (the kv-list and bytes variants are unused by the
processor and omitted). -/
inductive AnyValue where
  | str (s : String)
  | boolV (b : Bool)
  | intV (i : Int)
  | double (d : ℚ)
  | empty
  | slice (l : List AnyValue)

/-- pdata `Value.Str()`: zero value `""` for non-string values. -/
def AnyValue.strField : AnyValue → String
  | .str s => s
  | _ => ""

/-- pdata `Value.Bool()`: zero value `false` for non-bool values. -/
def AnyValue.boolField : AnyValue → Bool
  | .boolV b => b
  | _ => false

/-- pdata `Value.Int()`: zero value `0` for non-int values. -/
def AnyValue.intField : AnyValue → Int
  | .intV i => i
  | _ => 0

/-- pdata `Value.Double()`: zero value `0` for non-double values. -/
def AnyValue.doubleField : AnyValue → ℚ
  | .double d => d
  | _ => 0

/-- pdata `Value.AsString()` canonical rendering (used by the processor only
as an equality key, in `all_distinct` dedup and in resource hashing). -/
def AnyValue.asString : AnyValue → String
  | .str s => s
  | .boolV b => if b then "true" else "false"
  | .intV i => toString i
  | .double d => toString d
  | .empty => ""
  | .slice l => "[" ++ String.intercalate "," (l.attach.map fun v => v.1.asString) ++ "]"
decreasing_by
  have := List.sizeOf_lt_of_mem v.2
  simp only [AnyValue.slice.sizeOf_spec] at *
  omega

/-- pdata `pcommon.Map`: insertion-ordered, unique keys. -/
def AttrMap := List (String × AnyValue)

/-- `Map.Get`. -/
def AttrMap.get (m : AttrMap) (k : String) : Option AnyValue :=
  match m with
  | [] => none
  | (k', v) :: rest => if k' = k then some v else AttrMap.get rest k

/-- `Map.Put*` / `PutEmpty`+`CopyTo`: replace the binding if present,
append otherwise. -/
def AttrMap.put (m : AttrMap) (k : String) (v : AnyValue) : AttrMap :=
  match m with
  | [] => [(k, v)]
  | (k', v') :: rest =>
      if k' = k then (k', v) :: rest else (k', v') :: AttrMap.put rest k v

/-- `ptrace.SpanKind`. -/
inductive SpanKind where
  | unspecified
  | internal
  | server
  | client
  | producer
  | consumer
deriving DecidableEq

/-- `ptrace.SpanEvent`. -/
structure SpanEvent where
  name : String
  attributes : AttrMap

/-- `ptrace.Span` (fields the processor reads or writes). -/
structure Span where
  traceID : String
  spanID : String
  parentSpanID : String
  kind : SpanKind
  startTimestamp : Nat
  attributes : AttrMap
  events : List SpanEvent

/-- `SpanEntry` from buffer.go (resource/scope payloads omitted, see header). -/
structure SpanEntry where
  span : Span
  resourceHash : String

/-- `TraceState` from buffer.go. -/
structure TraceState where
  spans : List SpanEntry
  firstSeen : Nat

/-- `SubtraceState` from buffer.go; the Go `RootSpan *SpanEntry` pointer into
`Spans` is modelled as an index. -/
structure SubtraceState where
  spans : List SpanEntry
  rootIdx : Option Nat
  subtraceID : String
  traceID : String

/-- `shouldStartNewSubtrace` (processor.go). -/
def shouldStartNewSubtrace (parent child : SpanEntry) : Bool :=
  if parent.resourceHash ≠ child.resourceHash then
    true
  else
    let childKind := if child.span.kind = SpanKind.unspecified then SpanKind.internal else child.span.kind
    let parentKind := if parent.span.kind = SpanKind.unspecified then SpanKind.internal else parent.span.kind
    let isChildEntryPoint := childKind == SpanKind.server || childKind == SpanKind.consumer
    let isParentEntryPoint := parentKind == SpanKind.server || parentKind == SpanKind.consumer
    isChildEntryPoint && !isParentEntryPoint

/-- `determineRootSpan` (processor.go): index variant.  Returns the span
entries' candidate list (parent empty or not a member) and elects the root. -/
def rootCandidates (spans : List SpanEntry) : List Nat :=
  let spanIDs : List String := spans.map fun e => e.span.spanID
  (List.range spans.length).filter fun i =>
    match spans[i]? with
    | some entry =>
        entry.span.parentSpanID == "" || !(spanIDs.contains entry.span.parentSpanID)
    | none => false

/-- Pick from `idxs` the first index whose start timestamp is minimal,
mirroring the Go fold `if start(idx) < start(earliest) { earliest = idx }`. -/
def earliestIdx (spans : List SpanEntry) (first : Nat) (rest : List Nat) : Nat :=
  rest.foldl
    (fun earliest idx =>
      match spans[idx]?, spans[earliest]? with
      | some a, some b => if a.span.startTimestamp < b.span.startTimestamp then idx else earliest
      | _, _ => earliest)
    first

/-! ### SHA-256 (crypto/sha256), over `Nat` bytes/words with explicit `% 2^32` -/

/-- Truncate to 32 bits. -/
def m32 (x : Nat) : Nat := x % 4294967296

/-- 32-bit rotate right. -/
def rotr32 (n x : Nat) : Nat := m32 ((x >>> n) ||| (x <<< (32 - n)))

def sh256ch (x y z : Nat) : Nat := (x &&& y) ^^^ ((x ^^^ 4294967295) &&& z)

def sh256maj (x y z : Nat) : Nat := (x &&& y) ^^^ (x &&& z) ^^^ (y &&& z)

def bigSigma0 (x : Nat) : Nat := rotr32 2 x ^^^ rotr32 13 x ^^^ rotr32 22 x

def bigSigma1 (x : Nat) : Nat := rotr32 6 x ^^^ rotr32 11 x ^^^ rotr32 25 x

def smallSigma0 (x : Nat) : Nat := rotr32 7 x ^^^ rotr32 18 x ^^^ (x >>> 3)

def smallSigma1 (x : Nat) : Nat := rotr32 17 x ^^^ rotr32 19 x ^^^ (x >>> 10)

def sha256K : List Nat :=
  [1116352408, 1899447441, 3049323471, 3921009573, 961987163, 1508970993,
   2453635748, 2870763221, 3624381080, 310598401, 607225278, 1426881987,
   1925078388, 2162078206, 2614888103, 3248222580, 3835390401, 4022224774,
   264347078, 604807628, 770255983, 1249150122, 1555081692, 1996064986,
   2554220882, 2821834349, 2952996808, 3210313671, 3336571891, 3584528711,
   113926993, 338241895, 666307205, 773529912, 1294757372, 1396182291,
   1695183700, 1986661051, 2177026350, 2456956037, 2730485921, 2820302411,
   3259730800, 3345764771, 3516065817, 3600352804, 4094571909, 275423344,
   430227734, 506948616, 659060556, 883997877, 958139571, 1322822218,
   1537002063, 1747873779, 1955562222, 2024104815, 2227730452, 2361852424,
   2428436474, 2756734187, 3204031479, 3329325298]

def sha256H0 : List Nat :=
  [1779033703, 3144134277, 1013904242, 2773480762,
   1359893119, 2600822924, 528734635, 1541459225]

/-- Big-endian bytes of `n`, `width` bytes. -/
def beBytes (width n : Nat) : List Nat :=
  match width with
  | 0 => []
  | w + 1 => beBytes w (n / 256) ++ [n % 256]

/-- SHA-256 message padding. -/
def sha256Pad (msg : List Nat) : List Nat :=
  let len := msg.length
  let zeros := (119 - len % 64) % 64
  msg ++ [128] ++ List.replicate zeros 0 ++ beBytes 8 (len * 8)

/-- Combine 4 bytes big-endian into a 32-bit word. -/
def beWord : List Nat → Nat
  | [b0, b1, b2, b3] => b0 * 16777216 + b1 * 65536 + b2 * 256 + b3
  | _ => 0

def toWords : List Nat → List Nat
  | b0 :: b1 :: b2 :: b3 :: rest => beWord [b0, b1, b2, b3] :: toWords rest
  | _ => []

/-- Extend 16 words to the 64-word message schedule. -/
def sha256Schedule (ws : List Nat) : List Nat :=
  (List.range 48).foldl
    (fun acc _ =>
      let n := acc.length
      acc ++ [m32 (smallSigma1 (acc.getD (n - 2) 0) + acc.getD (n - 7) 0 +
                   smallSigma0 (acc.getD (n - 15) 0) + acc.getD (n - 16) 0)])
    ws

def sha256Round (st : List Nat) (w k : Nat) : List Nat :=
  match st with
  | [a, b, c, d, e, f, g, h] =>
      let t1 := m32 (h + bigSigma1 e + sh256ch e f g + k + w)
      let t2 := m32 (bigSigma0 a + sh256maj a b c)
      [m32 (t1 + t2), a, b, c, m32 (d + t1), e, f, g]
  | _ => st

def sha256Chunk (hs : List Nat) (chunk : List Nat) : List Nat :=
  let ws := sha256Schedule (toWords chunk)
  let st := (ws.zip sha256K).foldl (fun st wk => sha256Round st wk.1 wk.2) hs
  (hs.zip st).map fun p => m32 (p.1 + p.2)

def chunks64 (l : List Nat) : List (List Nat) :=
  if l = [] then [] else l.take 64 :: chunks64 (l.drop 64)
termination_by l.length
decreasing_by
  rename_i h
  have hl : 0 < l.length := List.length_pos.mpr h
  simp [List.length_drop]
  omega

/-- SHA-256 digest (32 bytes) of a byte list. -/
def sha256Bytes (msg : List Nat) : List Nat :=
  ((chunks64 (sha256Pad msg)).foldl sha256Chunk sha256H0).flatMap (beBytes 4)

def hexDigit (n : Nat) : Char := "0123456789abcdef".data.getD n '0'

def hexOfBytes (bs : List Nat) : String :=
  String.mk (bs.flatMap fun b => [hexDigit (b / 16), hexDigit (b % 16)])

/-- ASCII bytes of a string (all strings hashed by the processor are ASCII). -/
def strBytes (s : String) : List Nat := s.data.map Char.toNat

/-- `generateSubtraceID` (processor.go): hex of the first 8 bytes of
`SHA-256(traceID.String() ++ ":" ++ counter)`. -/
def generateSubtraceID (tid : String) (counter : Nat) : String :=
  hexOfBytes ((sha256Bytes (strBytes (tid ++ ":" ++ toString counter))).take 8)

/-- `hashResourceAttributes` (processor.go): keys sorted ascending, canonical
`k=v;` concatenation, hex of the first 8 bytes of the SHA-256. -/
def hashResourceAttributes (attrs : AttrMap) : String :=
  let keys := (attrs.map Prod.fst).mergeSort (fun a b => a ≤ b)
  let builder := keys.foldl
    (fun acc k => acc ++ k ++ "=" ++ ((attrs.get k).getD AnyValue.empty).asString ++ ";") ""
  hexOfBytes ((sha256Bytes (strBytes builder)).take 8)

/-! ### Subtrace assignment (`assignSubtraces`, processor.go) -/

/-- Go map lookup on an association list (inserts replace, so first match). -/
def assocGet {α : Type} (m : List (String × α)) (k : String) : Option α :=
  match m with
  | [] => none
  | (k', v) :: rest => if k' = k then some v else assocGet rest k

/-- Go map insert on an association list: replace the binding or append. -/
def assocPut {α : Type} (m : List (String × α)) (k : String) (v : α) : List (String × α) :=
  match m with
  | [] => [(k, v)]
  | (k', v') :: rest =>
      if k' = k then (k', v) :: rest else (k', v') :: assocPut rest k v

/-- `spanByID` map: built front-to-back with overwrite, so lookup returns the
last entry carrying the id. -/
def byId (spans : List SpanEntry) (k : String) : Option SpanEntry :=
  spans.reverse.find? fun e => e.span.spanID == k

/-- State of the assignment closure: the Go `subtraceAssignment` map (at the
level of the allocation counter; the stored string is `generateSubtraceID`
of it, applied when grouping) and `subtraceCounter`. -/
structure AssignSt where
  assignment : List (String × Nat)
  counter : Nat

def AssignSt.find (st : AssignSt) (k : String) : Option Nat :=
  assocGet st.assignment k

def AssignSt.insert (st : AssignSt) (k : String) (c : Nat) : AssignSt :=
  { st with assignment := assocPut st.assignment k c }

/-- Allocate a fresh subtrace for span id `k` (increments the counter). -/
def AssignSt.fresh (st : AssignSt) (k : String) : Nat × AssignSt :=
  (st.counter, { assignment := assocPut st.assignment k st.counter, counter := st.counter + 1 })

/-- The recursive memoized `assignSpan` closure.  `none` models the unbounded
recursion the Go code performs when parent pointers form a cycle. -/
def assignSpanF (lookup : String → Option SpanEntry) :
    Nat → SpanEntry → AssignSt → Option (Nat × AssignSt)
  | 0, _, _ => none
  | fuel + 1, e, st =>
    match st.find e.span.spanID with
    | some c => some (c, st)
    | none =>
      match lookup e.span.parentSpanID with
      | none => some (st.fresh e.span.spanID)
      | some p =>
        if e.span.parentSpanID = "" then
          some (st.fresh e.span.spanID)
        else
          match assignSpanF lookup fuel p st with
          | none => none
          | some (pc, st1) =>
            if shouldStartNewSubtrace p e then
              some (st1.fresh e.span.spanID)
            else
              some (pc, st1.insert e.span.spanID pc)

/-- The `assignSpan` loop over all spans of the trace. -/
def assignAll (spans : List SpanEntry) : Option AssignSt :=
  spans.foldl
    (fun acc e => acc.bind fun st =>
      (assignSpanF (byId spans) (spans.length + 1) e st).map Prod.snd)
    (some ⟨[], 0⟩)

/-- The subtrace-id string a span is grouped under (`subtraceAssignment[spanID]`,
with the Go zero value `""` for a missing key). -/
def strKey (tid : String) (st : AssignSt) (e : SpanEntry) : String :=
  match st.find e.span.spanID with
  | some c => generateSubtraceID tid c
  | none => ""

/-- Distinct keys in order of first appearance (a deterministic stand-in for
Go's randomized map iteration; every verified statement is insensitive to the
order of the groups). -/
def dedupKeys (l : List String) : List String :=
  l.foldl (fun acc k => if acc.contains k then acc else acc ++ [k]) []

/-- `assignSubtraces` (processor.go).  `none` models the non-terminating
recursion on parent-pointer cycles. -/
def assignSubtraces (ts : TraceState) (tid : String) : Option (List SubtraceState) :=
  if ts.spans.isEmpty then some []
  else
    (assignAll ts.spans).map fun st =>
      let keys := dedupKeys (ts.spans.map (strKey tid st))
      keys.map fun b =>
        { spans := ts.spans.filter fun e => strKey tid st e == b
          rootIdx := none
          subtraceID := b
          traceID := tid }

/-- The ids visited by a single descent of `assignSpanF` from `e` (the state
is fixed during the descent: the memo only grows on the way back up). -/
def dynChain (lookup : String → Option SpanEntry) (st : AssignSt) :
    Nat → SpanEntry → List String
  | 0, _ => []
  | fuel + 1, e =>
    match st.find e.span.spanID with
    | some _ => []
    | none =>
      match lookup e.span.parentSpanID with
      | none => [e.span.spanID]
      | some p =>
        if e.span.parentSpanID = "" then [e.span.spanID]
        else e.span.spanID :: dynChain lookup st fuel p

/-- One parent-following step of the descent, at a fixed memo state. -/
inductive ChainStep (lookup : String → Option SpanEntry) (st : AssignSt) :
    SpanEntry → SpanEntry → Prop where
  | mk (e p : SpanEntry) :
      st.find e.span.spanID = none →
      e.span.parentSpanID ≠ "" →
      lookup e.span.parentSpanID = some p →
      ChainStep lookup st e p

/-- `determineRootSpan` (processor.go). -/
def determineRootSpan (state : SubtraceState) : SubtraceState :=
  if state.spans.isEmpty then state
  else
    match rootCandidates state.spans with
    | [] =>
        -- cycle fallback: earliest start among all members, starting at 0
        { state with rootIdx := some (earliestIdx state.spans 0 (List.range state.spans.length)) }
    | [c] => { state with rootIdx := some c }
    | c :: cs => { state with rootIdx := some (earliestIdx state.spans c cs) }

/-! ### Condition expression evaluator (regex patterns of processor.go,
modelled as leftmost anchored-at-each-position matching) -/

/-- Go regexp `\s`: `[\t\n\f\r ]`. -/
def isWsChar (c : Char) : Bool :=
  c = ' ' || c = '\t' || c = '\n' || c = '\r' || c = Char.ofNat 12

/-- Go `unicode.IsSpace` restricted to ASCII (for `strings.TrimSpace`). -/
def isGoSpace (c : Char) : Bool :=
  c = ' ' || c = '\t' || c = '\n' || c = '\r' || c = Char.ofNat 11 || c = Char.ofNat 12

/-- Strip an exact literal from the front. -/
def stripLit : List Char → List Char → Option (List Char)
  | [], l => some l
  | _ :: _, [] => none
  | c :: cs, x :: xs => if x = c then stripLit cs xs else none

/-- Capture `([^"]+)` (greedy; deterministic because a `"` must follow). -/
def takeKey (l : List Char) : Option (String × List Char) :=
  let k := l.takeWhile fun c => c ≠ '"'
  if k.isEmpty then none else some (String.mk k, l.drop k.length)

/-- Common head of all five patterns:
`attributes\["([^"]+)"\]\s*op\s*` where `op` is `!=` or `==`. -/
def matchAtomHead (neq : Bool) (l : List Char) : Option (String × List Char) :=
  (stripLit "attributes[\"".data l).bind fun r1 =>
  (takeKey r1).bind fun kr =>
  (stripLit ['"', ']'] kr.2).bind fun r3 =>
  (stripLit (if neq then ['!', '='] else ['=', '=']) (r3.dropWhile isWsChar)).bind fun r5 =>
  some (kr.1, r5.dropWhile isWsChar)

/-- `attributes\["([^"]+)"\]\s*(!=|==)\s*nil`, anchored at the head. -/
def tryNilCmp (neq : Bool) (l : List Char) : Option String :=
  (matchAtomHead neq l).bind fun kr =>
  (stripLit "nil".data kr.2).map fun _ => kr.1

/-- `attributes\["([^"]+)"\]\s*(==|!=)\s*"([^"]*)"`, anchored at the head. -/
def tryStrCmp (neq : Bool) (l : List Char) : Option (String × String) :=
  (matchAtomHead neq l).bind fun kr =>
  match kr.2 with
  | '"' :: r2 =>
      let v := r2.takeWhile fun c => c ≠ '"'
      match r2.drop v.length with
      | '"' :: _ => some (kr.1, String.mk v)
      | _ => none
  | _ => none

/-- `attributes\["([^"]+)"\]\s*==\s*(true|false)`, anchored at the head
(leftmost alternative `true` tried first, as Go regexp does). -/
def tryBoolCmp (l : List Char) : Option (String × Bool) :=
  (matchAtomHead false l).bind fun kr =>
  match stripLit "true".data kr.2 with
  | some _ => some (kr.1, true)
  | none =>
    match stripLit "false".data kr.2 with
    | some _ => some (kr.1, false)
    | none => none

/-- `FindStringSubmatch`: try the anchored matcher at each position, leftmost
success wins. -/
def scanFor {α : Type} (f : List Char → Option α) : List Char → Option α
  | [] => f []
  | c :: rest =>
    match f (c :: rest) with
    | some r => some r
    | none => scanFor f rest

/-- `evaluateSingleCondition` (processor.go): the five regex patterns in
source order, unknown patterns permissively `true`. -/
def evaluateSingleCondition (attrs : AttrMap) (condition : String) : Bool :=
  let l := condition.data
  match scanFor (tryNilCmp true) l with
  | some k => (attrs.get k).isSome
  | none =>
  match scanFor (tryNilCmp false) l with
  | some k => !(attrs.get k).isSome
  | none =>
  match scanFor (tryStrCmp false) l with
  | some kv =>
      match attrs.get kv.1 with
      | some av => av.strField == kv.2
      | none => false
  | none =>
  match scanFor (tryStrCmp true) l with
  | some kv =>
      match attrs.get kv.1 with
      | some av => av.strField != kv.2
      | none => true
  | none =>
  match scanFor tryBoolCmp l with
  | some kb =>
      match attrs.get kb.1 with
      | some av => av.boolField == kb.2
      | none => false
  | none => true

/-- `strings.Contains` with a non-empty separator. -/
def containsSub (sep : List Char) : List Char → Bool
  | [] => sep.isEmpty
  | c :: rest => sep.isPrefixOf (c :: rest) || containsSub sep rest

/-- `strings.Split` on a separator substring. -/
def splitOnSub (sep : List Char) (l : List Char) : List (List Char) :=
  if sep.isEmpty then [l]
  else
    match l with
    | [] => [[]]
    | c :: rest =>
      if sep.isPrefixOf (c :: rest) then
        [] :: splitOnSub sep (rest.drop (sep.length - 1))
      else
        match splitOnSub sep rest with
        | [] => [[c]]
        | h :: t => (c :: h) :: t
termination_by l.length
decreasing_by
  all_goals simp [List.length_drop]
  all_goals omega

/-- `strings.TrimSpace` (ASCII). -/
def trimChars (l : List Char) : List Char :=
  ((l.dropWhile isGoSpace).reverse.dropWhile isGoSpace).reverse

/-- `evaluateCondition` (processor.go): `" and "` split (all parts), else
`" or "` split (any part), else single. -/
def evaluateCondition (attrs : AttrMap) (condition : String) : Bool :=
  let l := condition.data
  if containsSub " and ".data l then
    (splitOnSub " and ".data l).all fun part =>
      evaluateSingleCondition attrs (String.mk (trimChars part))
  else if containsSub " or ".data l then
    (splitOnSub " or ".data l).any fun part =>
      evaluateSingleCondition attrs (String.mk (trimChars part))
  else
    evaluateSingleCondition attrs condition

/-! ### Aggregation engine (aggregator part of processor.go) -/

/-- `AttributeAggregation` (config.go). -/
structure AttributeAggregation where
  aggregation : String
  source : String
  condition : String
  target : String
  maxValues : Int

/-- `EventAggregation` (config.go). -/
structure EventAggregation where
  aggregation : String
  source : String
  condition : String
  target : String
  maxEvents : Int

/-- `attributes\["([^"]+)"\]` of `getAttributeValue`. -/
def tryAttrPath (l : List Char) : Option String :=
  (stripLit "attributes[\"".data l).bind fun r1 =>
  (takeKey r1).bind fun kr =>
  (stripLit ['"', ']'] kr.2).map fun _ => kr.1

/-- `getAttributeValue` (processor.go). -/
def getAttributeValue (sp : Span) (source : String) : AnyValue :=
  match scanFor tryAttrPath source.data with
  | some k =>
      match sp.attributes.get k with
      | some v => v
      | none => AnyValue.empty
  | none => AnyValue.empty

/-- `Value.Type() == ValueTypeEmpty`. -/
def AnyValue.isEmptyV : AnyValue → Bool
  | .empty => true
  | _ => false

/-- `getNumericValue` (processor.go): 0 for non-numeric values. -/
def getNumericValue : AnyValue → ℚ
  | .intV i => (i : ℚ)
  | .double d => d
  | _ => 0

/-- Go `int64(float64)` truncation toward zero (exact on the integral sums
produced here). -/
def ratTrunc (q : ℚ) : Int := q.num / (q.den : Int)

/-- The `all_distinct` loop of `computeAggregation`: dedup by canonical
string, `seen` marked before the size check, `break` leaves the loop. -/
def allDistinctLoop (maxV : Nat) : List AnyValue → List String → List AnyValue → List AnyValue
  | [], _, acc => acc
  | v :: rest, seen, acc =>
    let key := v.asString
    if seen.contains key then allDistinctLoop maxV rest seen acc
    else if acc.length ≥ maxV then acc
    else allDistinctLoop maxV rest (seen ++ [key]) (acc ++ [v])

/-- `computeAggregation` (processor.go). -/
def computeAggregation (aggType : String) (values : List AnyValue) (count : Nat)
    (maxValues : Int) : AnyValue :=
  let maxV : Nat := if maxValues ≤ 0 then 100 else maxValues.toNat
  if aggType = "count" then
    .intV (Int.ofNat count)
  else if aggType = "any" then
    match values with
    | v :: _ => v
    | [] => .empty
  else if aggType = "sum" then
    let p := values.foldl
      (fun (acc : ℚ × Bool) v =>
        match v with
        | .intV i => (acc.1 + (i : ℚ), acc.2)
        | .double d => (acc.1 + d, false)
        | _ => acc)
      (0, true)
    if p.2 then .intV (ratTrunc p.1) else .double p.1
  else if aggType = "avg" then
    match values with
    | [] => .empty
    | _ =>
      let sum := values.foldl
        (fun (acc : ℚ) v =>
          match v with
          | .intV i => acc + (i : ℚ)
          | .double d => acc + d
          | _ => acc)
        0
      .double (sum / (values.length : ℚ))
  else if aggType = "min" then
    match values with
    | [] => .empty
    | v :: rest =>
      .double (rest.foldl
        (fun acc w => if getNumericValue w < acc then getNumericValue w else acc)
        (getNumericValue v))
  else if aggType = "max" then
    match values with
    | [] => .empty
    | v :: rest =>
      .double (rest.foldl
        (fun acc w => if getNumericValue w > acc then getNumericValue w else acc)
        (getNumericValue v))
  else if aggType = "all" then
    .slice (values.take maxV)
  else if aggType = "all_distinct" then
    .slice (allDistinctLoop maxV values [] [])
  else
    .empty

/-- Update the span at index `i`. -/
def modifySpanAt (spans : List SpanEntry) (i : Nat) (f : Span → Span) : List SpanEntry :=
  spans.mapIdx fun j e => if j = i then { e with span := f e.span } else e

/-- The root-skip test of `applyAttributeAggregation`:
`isRoot, ok := span.Attributes().Get("subtrace.is_root_span"); ok && isRoot.Bool()`. -/
def isRootMarked (entry : SpanEntry) : Bool :=
  match entry.span.attributes.get "subtrace.is_root_span" with
  | some v => v.boolField
  | none => false

/-- The per-span body of `applyAttributeAggregation`'s loop: skip marked
roots, apply the condition, count, and collect the non-empty source value. -/
def attrAggStep (agg : AttributeAggregation) (acc : List AnyValue × Nat)
    (entry : SpanEntry) : List AnyValue × Nat :=
  if isRootMarked entry then acc
  else if agg.condition ≠ "" ∧ ¬evaluateCondition entry.span.attributes agg.condition then acc
  else
    let cnt := acc.2 + 1
    if agg.source ≠ "" then
      let val := getAttributeValue entry.span agg.source
      if val.isEmptyV then (acc.1, cnt) else (acc.1 ++ [val], cnt)
    else (acc.1, cnt)

/-- `applyAttributeAggregation` (processor.go).  The root is skipped by the
`subtrace.is_root_span` attribute test, not by identity. -/
def applyAttributeAggregation (st : SubtraceState) (rootI : Nat)
    (agg : AttributeAggregation) : SubtraceState :=
  let collected := st.spans.foldl (attrAggStep agg) ([], 0)
  let values := collected.1
  let count := collected.2
  if count = 0 ∧ agg.aggregation ≠ "count" then st
  else if values.isEmpty ∧ agg.aggregation ≠ "count" then st
  else
    let result := computeAggregation agg.aggregation values count agg.maxValues
    if result.isEmptyV then st
    else
      let f := fun sp => { sp with attributes := sp.attributes.put agg.target result }
      { st with spans := modifySpanAt st.spans rootI f }

/-- `applyEventAggregation` (processor.go).  Note: iterates over ALL member
spans — the root span's own events are scanned too. -/
def applyEventAggregation (st : SubtraceState) (rootI : Nat)
    (agg : EventAggregation) : SubtraceState :=
  let matching : List (SpanEvent × String) := st.spans.foldl
    (fun acc entry =>
      acc ++ (entry.span.events.filterMap fun ev =>
        if ev.name = agg.source ∧
            (agg.condition = "" ∨ evaluateCondition ev.attributes agg.condition) then
          some (ev, entry.span.spanID)
        else none))
    []
  if matching.isEmpty then st
  else if agg.aggregation = "copy_event" then
    let maxE : Nat := if agg.maxEvents ≤ 0 then 10 else agg.maxEvents.toNat
    let copies := (matching.take maxE).map fun p =>
      { name := p.1.name, attributes := p.1.attributes.put "source_span_id" (.str p.2) : SpanEvent }
    let f := fun sp => { sp with events := sp.events ++ copies }
    { st with spans := modifySpanAt st.spans rootI f }
  else if agg.aggregation = "count" then
    let f := fun sp => { sp with attributes := sp.attributes.put agg.target (.intV matching.length) }
    { st with spans := modifySpanAt st.spans rootI f }
  else st

/-- `Aggregator.Apply` (processor.go). -/
def aggregatorApply (attrAggs : List AttributeAggregation)
    (eventAggs : List EventAggregation) (st : SubtraceState) : SubtraceState :=
  match st.rootIdx with
  | none => st
  | some i =>
    let st1 := attrAggs.foldl (fun s a => applyAttributeAggregation s i a) st
    eventAggs.foldl (fun s a => applyEventAggregation s i a) st1

/-- The labeling loop of `flushTrace` (processor.go): `subtrace.id` on every
span, `subtrace.is_root_span=true` on the root only; a pre-existing
`subtrace.is_root_span` on a non-root span is left untouched. -/
def labelSpans (st : SubtraceState) : SubtraceState :=
  { st with spans := st.spans.mapIdx fun j e =>
      let a1 := e.span.attributes.put "subtrace.id" (.str st.subtraceID)
      let a2 := if st.rootIdx = some j then a1.put "subtrace.is_root_span" (.boolV true) else a1
      { e with span := { e.span with attributes := a2 } } }

/-- The per-subtrace part of `flushTrace` (processor.go): root election,
labeling, then aggregation when a root exists.  The returned spans are the
emitted ones (the output batch copies them verbatim). -/
def flushSubtrace (attrAggs : List AttributeAggregation)
    (eventAggs : List EventAggregation) (st : SubtraceState) : SubtraceState :=
  let st1 := determineRootSpan st
  let st2 := labelSpans st1
  if st2.rootIdx.isSome then aggregatorApply attrAggs eventAggs st2 else st2

/-! ### Trace buffer (buffer.go) and `ConsumeTraces` (processor.go) -/

/-- Go map delete (keys are unique). -/
def assocRemove {α : Type} (m : List (String × α)) (k : String) : List (String × α) :=
  match m with
  | [] => []
  | (k', v) :: rest => if k' = k then rest else (k', v) :: assocRemove rest k

/-- `Buffer` (buffer.go). -/
structure BufState where
  traces : List (String × TraceState)
  maxSpans : Nat

/-- `Buffer.Add` (buffer.go): append the (deep-copied) span, report
`len(spans) >= maxSpans`. -/
def bufferAdd (b : BufState) (now : Nat) (resourceHash : String) (sp : Span) :
    BufState × Bool :=
  let tid := sp.traceID
  let cur := (assocGet b.traces tid).getD { spans := [], firstSeen := now }
  let newState : TraceState :=
    { cur with spans := cur.spans ++ [{ span := sp, resourceHash := resourceHash }] }
  ({ b with traces := assocPut b.traces tid newState },
   decide (newState.spans.length ≥ b.maxSpans))

/-- `Buffer.RemoveTrace` (buffer.go): atomic take-and-delete. -/
def removeTrace (b : BufState) (tid : String) : BufState × Option TraceState :=
  ({ b with traces := assocRemove b.traces tid }, assocGet b.traces tid)

/-- One `ResourceSpans` of an incoming batch. -/
structure ResourceSpansIn where
  resourceAttrs : AttrMap
  scopeSpans : List (List Span)

/-- The buffering phase of `ConsumeTraces` (processor.go): hash each
resource once, add every span, collect the trace ids whose cap was hit.
Flushing is deferred until after the whole batch is buffered. -/
def consumeAdds (b : BufState) (now : Nat) (batch : List ResourceSpansIn) :
    BufState × List String :=
  batch.foldl
    (fun acc rs =>
      let rh := hashResourceAttributes rs.resourceAttrs
      rs.scopeSpans.foldl
        (fun acc2 spans =>
          spans.foldl
            (fun (acc3 : BufState × List String) sp =>
              let r := bufferAdd acc3.1 now rh sp
              (r.1, if r.2 then acc3.2 ++ [sp.traceID] else acc3.2))
            acc2)
        acc)
    (b, [])

/-- One `flushTrace` call of the flush loop: remove the trace from the
buffer; a missing or empty state is a no-op, otherwise the state is
emitted. -/
def flushStep (acc : BufState × List TraceState) (tid : String) :
    BufState × List TraceState :=
  let r := removeTrace acc.1 tid
  match r.2 with
  | some ts => if ts.spans.isEmpty then (r.1, acc.2) else (r.1, acc.2 ++ [ts])
  | none => (r.1, acc.2)

/-- The flush phase of `ConsumeTraces`. -/
def consumeFlushes (b : BufState) (toFlush : List String) :
    BufState × List TraceState :=
  toFlush.foldl flushStep (b, [])

/-- `ConsumeTraces` (processor.go): buffer the whole batch, then flush the
traces that hit the cap. -/
def consumeTraces (b : BufState) (now : Nat) (batch : List ResourceSpansIn) :
    BufState × List TraceState :=
  let r := consumeAdds b now batch
  consumeFlushes r.1 r.2

/-- A sequence of `ConsumeTraces` calls (each with its wall-clock instant),
starting from a given buffer. -/
def runConsumes (b : BufState) (batches : List (Nat × List ResourceSpansIn)) : BufState :=
  batches.foldl (fun bb nb => (consumeTraces bb nb.1 nb.2).1) b

/-! ### Definitions taken from the spec's words, for comparison only -/

/-- Modelled from the spec: "min / max: numeric extremum; non-numeric inputs
skipped" — the extremum of the numeric values only, `none` when there is no
numeric value.  Used solely to exhibit the divergence of claim C7. -/
def specNumericExtremum (isMin : Bool) (values : List AnyValue) : Option ℚ :=
  let nums := values.filterMap fun v =>
    match v with
    | .intV i => some ((i : ℚ))
    | .double d => some d
    | _ => none
  match nums with
  | [] => none
  | h :: t => some (t.foldl (fun acc x => if isMin then min acc x else max acc x) h)

/-- Modelled from the spec: `attributes["k"] == true/false` "is true iff k
exists with that boolean value".  Used solely to exhibit the divergence of
claim C8. -/
def specBoolAtomHolds (attrs : AttrMap) (k : String) (b : Bool) : Prop :=
  attrs.get k = some (.boolV b)

/-- Start timestamp of the span at index `i` (0 out of bounds, never used
out of bounds). -/
def tsAt (spans : List SpanEntry) (i : Nat) : Nat :=
  match spans[i]? with
  | some e => e.span.startTimestamp
  | none => 0

/-! ### Concrete fixtures used by witness statements -/

/-- A marked root entry (service A, `SERVER`). -/
def wRoot : SpanEntry :=
  { span := { traceID := "t", spanID := "aa", parentSpanID := "", kind := .server,
              startTimestamp := 0,
              attributes := [("subtrace.is_root_span", .boolV true)], events := [] },
    resourceHash := "A" }

/-- An unmarked child entry with a `db.system` attribute. -/
def wChild : SpanEntry :=
  { span := { traceID := "t", spanID := "bb", parentSpanID := "aa", kind := .client,
              startTimestamp := 1,
              attributes := [("db.system", .str "postgres")], events := [] },
    resourceHash := "A" }

/-- A two-span subtrace whose root (index 0) is already marked. -/
def wState : SubtraceState :=
  { spans := [wRoot, wChild], rootIdx := some 0, subtraceID := "s", traceID := "t" }

/-- The N+1-detection count rule of the spec's Scenario B. -/
def wCountAgg : AttributeAggregation :=
  { aggregation := "count", source := "",
    condition := "attributes[\"db.system\"] != nil",
    target := "subtrace.db_call_count", maxValues := 0 }

/-- A root span of trace `T`. -/
def wSpanT (sid : String) : Span :=
  { traceID := "T", spanID := sid, parentSpanID := "", kind := .server,
    startTimestamp := 0, attributes := [], events := [] }

/-- One batch carrying three spans of the same trace `T`. -/
def wBatch : List ResourceSpansIn :=
  [{ resourceAttrs := [], scopeSpans := [[wSpanT "x1", wSpanT "x2", wSpanT "x3"]] }]

/-- One batch carrying a single span of trace `T`. -/
def wSmallBatch : List ResourceSpansIn :=
  [{ resourceAttrs := [], scopeSpans := [[wSpanT "x1"]] }]

/-- An empty buffer with cap 2. -/
def wBuf0 : BufState := { traces := [], maxSpans := 2 }

/-- A span entry builder for fixtures. -/
def wMkEntry (sid pid : String) (k : SpanKind) (rh : String) : SpanEntry :=
  { span := { traceID := "t", spanID := sid, parentSpanID := pid, kind := k,
              startTimestamp := 0, attributes := [], events := [] },
    resourceHash := rh }

/-- Scenario A of the spec: linear A→B call. -/
def wTraceA : TraceState :=
  { spans := [wMkEntry "s1" "" .server "A", wMkEntry "s2" "s1" .client "A",
              wMkEntry "s3" "s2" .server "B", wMkEntry "s4" "s3" .internal "B"],
    firstSeen := 0 }

def wCycA : SpanEntry := wMkEntry "aaa" "bbb" .internal "A"

def wCycB : SpanEntry := wMkEntry "bbb" "aaa" .internal "A"

/-- A trace whose two spans are each other's parents (a parent-pointer
cycle). -/
def wCyc : TraceState := { spans := [wCycA, wCycB], firstSeen := 0 }

/-! ### Verification predicates for the assignment algorithm -/

/-- All assigned counters are below the allocation counter. -/
def WFA (st : AssignSt) : Prop := ∀ k c, st.find k = some c → c < st.counter

/-- The span opens a new subtrace when processed: orphan (parent missing or
empty parent id) or separated from its parent by the service-boundary rule. -/
def isFreshSpan (lookup : String → Option SpanEntry) (s : SpanEntry) : Prop :=
  lookup s.span.parentSpanID = none ∨ s.span.parentSpanID = "" ∨
    (∃ p, lookup s.span.parentSpanID = some p ∧ shouldStartNewSubtrace p s = true)

/-- Distinct subtrace-opening spans always hold distinct counters. -/
def FreshInj (lookup : String → Option SpanEntry) (st : AssignSt) : Prop :=
  ∀ s1 s2 c,
    lookup s1.span.spanID = some s1 → lookup s2.span.spanID = some s2 →
    isFreshSpan lookup s1 → isFreshSpan lookup s2 →
    st.find s1.span.spanID = some c → st.find s2.span.spanID = some c →
    s1.span.spanID = s2.span.spanID

/-- The boundary relation between an assigned span and its (present)
parent: equal counters exactly when no service boundary separates them. -/
def KeyProp (lookup : String → Option SpanEntry) (st : AssignSt)
    (k : String) (v : Nat) : Prop :=
  ∀ s p, lookup k = some s →
    s.span.parentSpanID ≠ "" → lookup s.span.parentSpanID = some p →
    ∃ w, st.find s.span.parentSpanID = some w ∧
      (v = w ↔ shouldStartNewSubtrace p s = false)

/-- `KeyProp` holds of every assigned key. -/
def AllKeyProp (lookup : String → Option SpanEntry) (st : AssignSt) : Prop :=
  ∀ k v, st.find k = some v → KeyProp lookup st k v

/-! ## Helper lemmas -/

theorem earliestIdx_nil (spans : List SpanEntry) (first : Nat) :
    earliestIdx spans first [] = first := rfl

theorem earliestIdx_cons (spans : List SpanEntry) (first x : Nat) (xs : List Nat)
    (hx : x < spans.length) (hf : first < spans.length) :
    earliestIdx spans first (x :: xs) =
      earliestIdx spans (if tsAt spans x < tsAt spans first then x else first) xs := by
  obtain ⟨a, ha⟩ : ∃ a, spans[x]? = some a := ⟨spans[x], List.getElem?_eq_getElem hx⟩
  obtain ⟨b, hb⟩ : ∃ b, spans[first]? = some b := ⟨spans[first], List.getElem?_eq_getElem hf⟩
  simp only [earliestIdx, List.foldl_cons, ha, hb, tsAt]

/-- The Go strict-less fold elects the first index attaining the minimal
start timestamp: everything before it in the scanned list is strictly
later, everything after is not earlier. -/
theorem earliestIdx_sandwich (spans : List SpanEntry) :
    ∀ (rest : List Nat) (first : Nat), (∀ j ∈ first :: rest, j < spans.length) →
    ∃ l1 l2, first :: rest = l1 ++ earliestIdx spans first rest :: l2 ∧
      (∀ j ∈ l1, tsAt spans (earliestIdx spans first rest) < tsAt spans j) ∧
      (∀ j ∈ l2, tsAt spans (earliestIdx spans first rest) ≤ tsAt spans j) := by
  intro rest
  induction rest with
  | nil =>
    intro first _
    exact ⟨[], [], by simp [earliestIdx_nil], by simp, by simp⟩
  | cons x xs ih =>
    intro first hmem
    have hf : first < spans.length := hmem first (by simp)
    have hx : x < spans.length := hmem x (by simp)
    rw [earliestIdx_cons spans first x xs hx hf]
    by_cases hlt : tsAt spans x < tsAt spans first
    · rw [if_pos hlt]
      have hsub : ∀ j ∈ x :: xs, j < spans.length :=
        fun j hj => hmem j (List.mem_cons_of_mem _ hj)
      obtain ⟨l1, l2, hsplit, hstrict, hge⟩ := ih x hsub
      refine ⟨first :: l1, l2, by simp [hsplit], ?_, hge⟩
      intro j hj
      rcases List.mem_cons.mp hj with h | h
      · -- the dropped first: result ≤ ts x < ts first
        have hxmem : x ∈ l1 ++ earliestIdx spans x xs :: l2 := by rw [← hsplit]; simp
        have hle : tsAt spans (earliestIdx spans x xs) ≤ tsAt spans x := by
          rcases List.mem_append.mp hxmem with h1 | h2
          · exact le_of_lt (hstrict x h1)
          · rcases List.mem_cons.mp h2 with h3 | h4
            · exact le_of_eq (congrArg (tsAt spans) h3.symm)
            · exact hge x h4
        rw [h]
        exact lt_of_le_of_lt hle hlt
      · exact hstrict j h
    · rw [if_neg hlt]
      have hsub2 : ∀ j ∈ first :: xs, j < spans.length := by
        intro j hj
        rcases List.mem_cons.mp hj with h | h
        · rw [h]; exact hf
        · exact hmem j (List.mem_cons_of_mem _ (List.mem_cons_of_mem _ h))
      obtain ⟨l1, l2, hsplit, hstrict, hge⟩ := ih first hsub2
      push_neg at hlt
      rcases l1 with _ | ⟨a, t⟩
      · -- result is `first` itself, sitting at the front
        simp only [List.nil_append] at hsplit
        have hr : earliestIdx spans first xs = first :=
          (((List.cons.injEq _ _ _ _).mp hsplit).1).symm
        have hxs : xs = l2 := ((List.cons.injEq _ _ _ _).mp hsplit).2
        have hgoal1 : first :: x :: xs = [] ++ earliestIdx spans first xs :: x :: l2 := by
          rw [hr]
          conv_lhs => rw [hxs]
          simp
        refine ⟨[], x :: l2, hgoal1, by simp, ?_⟩
        intro j hj
        rcases List.mem_cons.mp hj with h | h
        · rw [h, hr]; exact hlt
        · exact hge j h
      · -- result sits inside xs; first and x both precede it strictly
        have ha : a = first := (((List.cons.injEq _ _ _ _).mp hsplit).1).symm
        have hxs : xs = t ++ earliestIdx spans first xs :: l2 :=
          ((List.cons.injEq _ _ _ _).mp hsplit).2
        have hfirst_strict : tsAt spans (earliestIdx spans first xs) < tsAt spans first := by
          have h0 := hstrict a (by simp)
          rwa [ha] at h0
        have hgoal2 : first :: x :: xs = (first :: x :: t) ++ earliestIdx spans first xs :: l2 := by
          conv_lhs => rw [hxs]
          simp
        refine ⟨first :: x :: t, l2, hgoal2, ?_, hge⟩
        intro j hj
        rcases List.mem_cons.mp hj with h | h
        · rw [h]; exact hfirst_strict
        · rcases List.mem_cons.mp h with h2 | h2
          · rw [h2]; exact lt_of_lt_of_le hfirst_strict hlt
          · exact hstrict j (by simp [h2])

/-- Membership and minimality, packaged from the sandwich. -/
theorem earliestIdx_min (spans : List SpanEntry) (rest : List Nat) (first : Nat)
    (h : ∀ j ∈ first :: rest, j < spans.length) :
    earliestIdx spans first rest ∈ first :: rest ∧
      ∀ j ∈ first :: rest, tsAt spans (earliestIdx spans first rest) ≤ tsAt spans j := by
  obtain ⟨l1, l2, hsplit, hstrict, hge⟩ := earliestIdx_sandwich spans rest first h
  constructor
  · rw [hsplit]; simp
  · intro j hj
    rw [hsplit] at hj
    rcases List.mem_append.mp hj with h1 | h2
    · exact le_of_lt (hstrict j h1)
    · rcases List.mem_cons.mp h2 with rfl | h3
      · exact le_refl _
      · exact hge j h3

theorem rootCandidates_subset (spans : List SpanEntry) :
    ∀ j ∈ rootCandidates spans, j < spans.length := by
  intro j hj
  have := List.mem_filter.mp hj
  exact List.mem_range.mp this.1

theorem rootCandidates_sorted (spans : List SpanEntry) :
    (rootCandidates spans).Pairwise (· < ·) := by
  exact (List.pairwise_lt_range _).filter _

/-- `determineRootSpan` always elects an in-bounds root on a non-empty span
list. -/
theorem determineRoot_isSome (st : SubtraceState) (h : st.spans ≠ []) :
    ∃ i, (determineRootSpan st).rootIdx = some i ∧ i < st.spans.length := by
  have hlen : 0 < st.spans.length := List.length_pos.mpr h
  have hne : st.spans.isEmpty = false := by
    rcases hs : st.spans with _ | _
    · exact absurd hs h
    · rfl
  rcases hc : rootCandidates st.spans with _ | ⟨c, cs⟩
  · refine ⟨earliestIdx st.spans 0 (List.range st.spans.length), ?_, ?_⟩
    · simp only [determineRootSpan, hne, Bool.false_eq_true, if_false, hc]
    · have hm := (earliestIdx_min st.spans (List.range st.spans.length) 0 (by
        intro j hj
        rcases List.mem_cons.mp hj with h' | h'
        · rw [h']; exact hlen
        · exact List.mem_range.mp h')).1
      rcases List.mem_cons.mp hm with h' | h'
      · rw [h']; exact hlen
      · exact List.mem_range.mp h'
  · rcases cs with _ | ⟨c2, cs2⟩
    · refine ⟨c, ?_, ?_⟩
      · simp only [determineRootSpan, hne, Bool.false_eq_true, if_false, hc]
      · exact rootCandidates_subset st.spans c (by rw [hc]; simp)
    · refine ⟨earliestIdx st.spans c (c2 :: cs2), ?_, ?_⟩
      · simp only [determineRootSpan, hne, Bool.false_eq_true, if_false, hc]
      · have hmem := (earliestIdx_min st.spans (c2 :: cs2) c (by
          intro j hj
          refine rootCandidates_subset st.spans j ?_
          rw [hc]
          exact hj)).1
        refine rootCandidates_subset st.spans _ ?_
        rw [hc]
        exact hmem

theorem labelSpans_rootIdx (st : SubtraceState) :
    (labelSpans st).rootIdx = st.rootIdx := rfl

theorem determineRoot_spans (st : SubtraceState) :
    (determineRootSpan st).spans = st.spans := by
  by_cases he : st.spans.isEmpty
  · simp [determineRootSpan, he]
  · simp only [determineRootSpan, Bool.not_eq_true] at he ⊢
    rw [he]
    rcases rootCandidates st.spans with _ | ⟨c, _ | _⟩ <;> simp

theorem getElem?_mapIdx {α β : Type} (f : Nat → α → β) (l : List α) (j : Nat) :
    (l.mapIdx f)[j]? = Option.map (f j) l[j]? := by
  rw [List.mapIdx_eq_enum_map, List.getElem?_map, List.enum_eq_enumFrom,
    List.getElem?_enumFrom]
  cases l[j]? <;> simp

theorem modifySpanAt_getElem? (spans : List SpanEntry) (i : Nat) (f : Span → Span) (j : Nat) :
    (modifySpanAt spans i f)[j]? =
      if j = i then (spans[j]?).map (fun e => { e with span := f e.span }) else spans[j]? := by
  rw [modifySpanAt, getElem?_mapIdx]
  by_cases hji : j = i
  · simp [hji]
  · cases spans[j]? <;> simp [hji]

theorem AttrMap.get_put (m : AttrMap) (k : String) (v : AnyValue) :
    (m.put k v).get k = some v := by
  induction m with
  | nil => simp [AttrMap.put, AttrMap.get]
  | cons p rest ih =>
    by_cases hk : p.1 = k
    · simp [AttrMap.put, AttrMap.get, hk]
    · simp [AttrMap.put, AttrMap.get, hk, ih]

theorem AttrMap.get_put_ne (m : AttrMap) (k k' : String) (v : AnyValue) (h : k' ≠ k) :
    (m.put k v).get k' = m.get k' := by
  induction m with
  | nil => simp [AttrMap.put, AttrMap.get, Ne.symm h]
  | cons p rest ih =>
    by_cases hk : p.1 = k
    · simp [AttrMap.put, AttrMap.get, hk, Ne.symm h]
    · by_cases hk' : p.1 = k'
      · simp [AttrMap.put, AttrMap.get, hk, hk', h]
      · simp [AttrMap.put, AttrMap.get, hk, hk', ih]

/-! ## Claim theorems -/

/-- C10.  For every non-empty subtrace, `determineRootSpan` elects an
in-bounds root (also under parent-pointer cycles, via the earliest-start
fallback), so `flushTrace`'s no-root branch is unreachable and the
aggregator is applied to every non-empty subtrace. -/
theorem c10_root_always_elected (st : SubtraceState)
    (attrAggs : List AttributeAggregation) (eventAggs : List EventAggregation)
    (h : st.spans ≠ []) :
    (∃ i, (determineRootSpan st).rootIdx = some i ∧ i < st.spans.length) ∧
    flushSubtrace attrAggs eventAggs st =
      aggregatorApply attrAggs eventAggs (labelSpans (determineRootSpan st)) := by
  obtain ⟨i, hi, hlen⟩ := determineRoot_isSome st h
  refine ⟨⟨i, hi, hlen⟩, ?_⟩
  simp only [flushSubtrace, labelSpans_rootIdx, hi, Option.isSome_some, if_true]

theorem c10_root_always_elected_witness :
    (let e : SpanEntry :=
      { span := { traceID := "t", spanID := "aa", parentSpanID := "bb", kind := .internal,
                  startTimestamp := 3, attributes := [], events := [] }, resourceHash := "A" }
     let st : SubtraceState := { spans := [e], rootIdx := none, subtraceID := "s", traceID := "t" }
     (∃ i, (determineRootSpan st).rootIdx = some i ∧ i < st.spans.length) ∧
     flushSubtrace [] [] st = aggregatorApply [] [] (labelSpans (determineRootSpan st))) := by
  exact c10_root_always_elected _ [] [] (by simp)

/-- C4.  Root selection: the candidates are the members whose parent id is
empty or not a member span id; a unique candidate is the root; with several,
the earliest `start_timestamp` wins with ties broken by insertion order
(smaller index); with none, the same election runs over all members. -/
theorem c4_root_selection (st : SubtraceState) (h : st.spans ≠ []) :
    ∃ r, (determineRootSpan st).rootIdx = some r ∧ r < st.spans.length ∧
      (∀ c, rootCandidates st.spans = [c] → r = c) ∧
      (rootCandidates st.spans ≠ [] →
        r ∈ rootCandidates st.spans ∧
        (∀ j ∈ rootCandidates st.spans, tsAt st.spans r ≤ tsAt st.spans j) ∧
        (∀ j ∈ rootCandidates st.spans, j < r → tsAt st.spans r < tsAt st.spans j)) ∧
      (rootCandidates st.spans = [] →
        (∀ j, j < st.spans.length → tsAt st.spans r ≤ tsAt st.spans j) ∧
        (∀ j, j < r → tsAt st.spans r < tsAt st.spans j)) := by
  have hlen : 0 < st.spans.length := List.length_pos.mpr h
  have hne : st.spans.isEmpty = false := by
    rcases hs : st.spans with _ | _
    · exact absurd hs h
    · rfl
  have hsorted : (rootCandidates st.spans).Pairwise (· < ·) := rootCandidates_sorted st.spans
  rcases hc : rootCandidates st.spans with _ | ⟨c, cs⟩
  · -- no candidate: fallback over all members
    set r := earliestIdx st.spans 0 (List.range st.spans.length) with hr
    have hbound : ∀ j ∈ (0 : Nat) :: List.range st.spans.length, j < st.spans.length := by
      intro j hj
      rcases List.mem_cons.mp hj with h' | h'
      · rw [h']; exact hlen
      · exact List.mem_range.mp h'
    have hmin := earliestIdx_min st.spans (List.range st.spans.length) 0 hbound
    have hrlen : r < st.spans.length := by
      rcases List.mem_cons.mp hmin.1 with h' | h'
      · rw [hr, h']; exact hlen
      · exact List.mem_range.mp h'
    refine ⟨r, ?_, hrlen, ?_, ?_, ?_⟩
    · simp only [determineRootSpan, hne, Bool.false_eq_true, if_false, hc, hr]
    · intro c' hcc
      cases hcc
    · intro hnil
      exact absurd rfl hnil
    · intro _
      constructor
      · intro j hj
        exact hmin.2 j (List.mem_cons_of_mem _ (List.mem_range.mpr hj))
      · -- strictly-later before r: position argument in 0 :: range
        obtain ⟨l1, l2, hsplit, hstrict, _⟩ :=
          earliestIdx_sandwich st.spans (List.range st.spans.length) 0 hbound
        intro j hj
        rcases l1 with _ | ⟨a, t⟩
        · -- r is the head 0, nothing before it
          simp only [List.nil_append] at hsplit
          have hz : r = 0 := by
            rw [hr]
            exact (((List.cons.injEq _ _ _ _).mp hsplit).1).symm
          omega
        · have ha : a = 0 := (((List.cons.injEq _ _ _ _).mp hsplit).1).symm
          have hrange : List.range st.spans.length = t ++ earliestIdx st.spans 0 (List.range st.spans.length) :: l2 :=
            ((List.cons.injEq _ _ _ _).mp hsplit).2
          have htlen : t.length < st.spans.length := by
            have hlc := congrArg List.length hrange
            simp at hlc
            omega
          have hrt : r = t.length := by
            have h1 : (t ++ earliestIdx st.spans 0 (List.range st.spans.length) :: l2)[t.length]? =
                some (earliestIdx st.spans 0 (List.range st.spans.length)) := by
              rw [List.getElem?_append_right (le_refl t.length)]
              simp
            rw [← hrange, List.getElem?_range htlen] at h1
            rw [hr]
            exact ((Option.some.injEq _ _).mp h1).symm
          have hjt : j ∈ t := by
            have ht : t = List.range t.length := by
              have h2 : (t ++ earliestIdx st.spans 0 (List.range st.spans.length) :: l2).take t.length = t :=
                List.take_left t _
              rw [← hrange, List.take_range] at h2
              rw [min_eq_left (le_of_lt htlen)] at h2
              exact h2.symm
            rw [ht]
            exact List.mem_range.mpr (by omega)
          exact hstrict j (List.mem_cons_of_mem _ hjt)
  · -- at least one candidate
    rcases cs with _ | ⟨c2, cs2⟩
    · -- unique candidate
      refine ⟨c, ?_, rootCandidates_subset st.spans c (by rw [hc]; simp), ?_, ?_, ?_⟩
      · simp only [determineRootSpan, hne, Bool.false_eq_true, if_false, hc]
      · intro c' hcc
        exact ((List.cons.injEq _ _ _ _).mp hcc).1
      · intro _
        refine ⟨by simp, ?_, ?_⟩
        · intro j hj
          have hjc : j = c := by simpa using hj
          rw [hjc]
        · intro j hj hjr
          have hjc : j = c := by simpa using hj
          omega
      · intro hnil
        cases hnil
    · -- several candidates
      set r := earliestIdx st.spans c (c2 :: cs2) with hr
      have hbound : ∀ j ∈ c :: c2 :: cs2, j < st.spans.length := by
        intro j hj
        refine rootCandidates_subset st.spans j ?_
        rw [hc]
        exact hj
      have hmin := earliestIdx_min st.spans (c2 :: cs2) c hbound
      have hrlen : r < st.spans.length := by
        refine rootCandidates_subset st.spans r ?_
        rw [hc]
        exact hmin.1
      refine ⟨r, ?_, hrlen, ?_, ?_, ?_⟩
      · simp only [determineRootSpan, hne, Bool.false_eq_true, if_false, hc, hr]
      · intro c' hcc
        simp at hcc
      · intro _
        refine ⟨hmin.1, ?_, ?_⟩
        · intro j hj
          exact hmin.2 j hj
        · intro j hj hjr
          obtain ⟨l1, l2, hsplit, hstrict, _⟩ :=
            earliestIdx_sandwich st.spans (c2 :: cs2) c hbound
          rw [hsplit] at hj
          rcases List.mem_append.mp hj with h1 | h2
          · exact hstrict j h1
          · rcases List.mem_cons.mp h2 with h3 | h3
            · rw [hr] at hjr
              omega
            · -- j after r in a strictly increasing list: r < j, contradiction
              have hp := hsorted
              rw [hc, hsplit] at hp
              have hcross := (List.pairwise_append.mp hp).2.1
              have hrj : earliestIdx st.spans c (c2 :: cs2) < j :=
                (List.pairwise_cons.mp hcross).1 j h3
              rw [hr] at hjr
              omega
      · intro hnil
        cases hnil

theorem c4_root_selection_witness :
    (let e1 : SpanEntry :=
      { span := { traceID := "t", spanID := "aa", parentSpanID := "", kind := .server,
                  startTimestamp := 5, attributes := [], events := [] }, resourceHash := "A" }
     let e2 : SpanEntry :=
      { span := { traceID := "t", spanID := "bb", parentSpanID := "aa", kind := .client,
                  startTimestamp := 7, attributes := [], events := [] }, resourceHash := "A" }
     let st : SubtraceState :=
      { spans := [e1, e2], rootIdx := none, subtraceID := "s", traceID := "t" }
     ∃ r, (determineRootSpan st).rootIdx = some r ∧ r < st.spans.length ∧
      (∀ c, rootCandidates st.spans = [c] → r = c) ∧
      (rootCandidates st.spans ≠ [] →
        r ∈ rootCandidates st.spans ∧
        (∀ j ∈ rootCandidates st.spans, tsAt st.spans r ≤ tsAt st.spans j) ∧
        (∀ j ∈ rootCandidates st.spans, j < r → tsAt st.spans r < tsAt st.spans j)) ∧
      (rootCandidates st.spans = [] →
        (∀ j, j < st.spans.length → tsAt st.spans r ≤ tsAt st.spans j) ∧
        (∀ j, j < r → tsAt st.spans r < tsAt st.spans j))) := by
  exact c4_root_selection _ (by simp)

/-- C7.  `min`/`max` do NOT skip non-numeric inputs: `getNumericValue`
coerces them to 0, which then takes part in the extremum.  On
`["x", 5]` the code writes `0.0` while the spec's numeric extremum of the
numeric values is `5`. -/
theorem c7_min_nonnumeric_influences :
    computeAggregation "min" [.str "x", .intV 5] 2 0 = .double 0 ∧
    specNumericExtremum true [.str "x", .intV 5] = some 5 ∧
    (0 : ℚ) ≠ 5 := by
  refine ⟨rfl, rfl, by norm_num⟩

/-- C5.  Event aggregation scans the root span's own events: a matching
event on the root is copied back onto the root (gaining
`source_span_id` equal to the root's own id) and counted, although no
non-root member matches. -/
theorem c5_root_events_scanned :
    (let ev : SpanEvent := { name := "exception", attributes := [("exception.type", .str "X")] }
     let sp : Span := { traceID := "t", spanID := "aa", parentSpanID := "", kind := .server,
                        startTimestamp := 0,
                        attributes := [("subtrace.id", .str "s"),
                                       ("subtrace.is_root_span", .boolV true)],
                        events := [ev] }
     let st : SubtraceState := { spans := [{ span := sp, resourceHash := "A" }],
                                 rootIdx := some 0, subtraceID := "s", traceID := "t" }
     let rule : EventAggregation := { aggregation := "copy_event", source := "exception",
                                      condition := "", target := "", maxEvents := 0 }
     let out := applyEventAggregation st 0 rule
     ((out.spans.map fun e => e.span.events.length) = [2] ∧
      (out.spans.map fun e =>
          (e.span.events.getD 1 { name := "", attributes := [] }).attributes.get "source_span_id")
        = [some (.str "aa")] ∧
      (let countRule : EventAggregation := { aggregation := "count", source := "exception",
                                             condition := "", target := "exc_count", maxEvents := 0 }
       (applyEventAggregation st 0 countRule).spans.map
          (fun e => e.span.attributes.get "exc_count") = [some (.intV 1)]))) := by
  exact ⟨rfl, rfl, rfl⟩

/-- C6 counterexample.  A `count` rule with zero matching spans still
writes the target attribute, with integer value 0 — it is not absent. -/
theorem c6_count_zero_written :
    (let sp : Span := { traceID := "t", spanID := "aa", parentSpanID := "", kind := .server,
                        startTimestamp := 0,
                        attributes := [("subtrace.is_root_span", .boolV true)], events := [] }
     let st : SubtraceState := { spans := [{ span := sp, resourceHash := "A" }],
                                 rootIdx := some 0, subtraceID := "s", traceID := "t" }
     let rule : AttributeAggregation := { aggregation := "count", source := "",
                                          condition := "attributes[\"db.system\"] != nil",
                                          target := "subtrace.db_call_count",
                                          maxValues := 0 }
     (applyAttributeAggregation st 0 rule).spans.map
        (fun e => e.span.attributes.get "subtrace.db_call_count") = [some (.intV 0)]) := rfl

/-- The loop body counts exactly the unmarked spans passing the condition. -/
theorem attrAggStep_snd_single (agg : AttributeAggregation)
    (acc : List AnyValue × Nat) (x : SpanEntry) :
    (attrAggStep agg acc x).2 = acc.2 +
      (if (!isRootMarked x &&
            (if agg.condition = "" then true
             else evaluateCondition x.span.attributes agg.condition)) = true
       then 1 else 0) := by
  by_cases hm : isRootMarked x = true
  · simp [attrAggStep, hm]
  · have hm' : isRootMarked x = false := by
      cases h : isRootMarked x
      · rfl
      · exact absurd h hm
    by_cases hskip : agg.condition ≠ "" ∧ ¬evaluateCondition x.span.attributes agg.condition
    · have hc : agg.condition ≠ "" := hskip.1
      have he : evaluateCondition x.span.attributes agg.condition = false := by
        cases h : evaluateCondition x.span.attributes agg.condition
        · rfl
        · exact absurd h hskip.2
      simp [attrAggStep, hm', hskip, hc, he]
    · have hP : (!isRootMarked x &&
          (if agg.condition = "" then true
           else evaluateCondition x.span.attributes agg.condition)) = true := by
        rcases not_and_or.mp hskip with h1 | h2
        · have : agg.condition = "" := not_not.mp h1
          simp [hm', this]
        · have : evaluateCondition x.span.attributes agg.condition = true := not_not.mp h2
          simp [hm', this]
      rw [hP]
      simp only [attrAggStep, hm', Bool.false_eq_true, if_false, if_neg hskip]
      by_cases hs : agg.source ≠ ""
      · simp only [if_pos hs]
        by_cases he : (getAttributeValue x.span agg.source).isEmptyV <;> simp [he]
      · simp [hs]

theorem attrAggStep_snd (agg : AttributeAggregation) :
    ∀ (spans : List SpanEntry) (acc : List AnyValue × Nat),
      (spans.foldl (attrAggStep agg) acc).2 =
        acc.2 + (spans.filter fun e =>
          !isRootMarked e &&
          (if agg.condition = "" then true
           else evaluateCondition e.span.attributes agg.condition)).length := by
  intro spans
  induction spans with
  | nil => simp
  | cons x xs ih =>
    intro acc
    rw [List.foldl_cons, ih, attrAggStep_snd_single, List.filter_cons]
    cases hP : (!isRootMarked x &&
        (if agg.condition = "" then true
         else evaluateCondition x.span.attributes agg.condition))
    · simp only [Bool.false_eq_true, if_false]
      omega
    · simp only [eq_self_iff_true, if_true, List.length_cons]
      omega

/-- Filtering by a positional predicate agrees with filtering by a value
predicate that matches it pointwise. -/
theorem length_filter_enumFrom {α : Type} (Q : Nat × α → Bool) (P : α → Bool) :
    ∀ (l : List α) (n : Nat), (∀ j, (hj : j < l.length) → P l[j] = Q (n + j, l[j])) →
      (l.filter P).length = ((l.enumFrom n).filter Q).length := by
  intro l
  induction l with
  | nil => simp
  | cons x xs ih =>
    intro n hpq
    have hx : P x = Q (n, x) := by
      have h0 := hpq 0 (by simp)
      simpa using h0
    have hih := ih (n + 1) (by
      intro j hj
      have hjb : j + 1 < (x :: xs).length := by
        simp only [List.length_cons]
        omega
      have h1 := hpq (j + 1) hjb
      have h2 : (x :: xs)[j + 1] = xs[j] := by simp
      rw [h2] at h1
      have h3 : n + (j + 1) = n + 1 + j := by omega
      rw [h3] at h1
      exact h1)
    simp only [List.enumFrom, List.filter_cons]
    by_cases hq : Q (n, x) = true
    · rw [hx, hq]
      simp [hih]
    · have hq' : Q (n, x) = false := by
        cases h : Q (n, x)
        · rfl
        · exact absurd h hq
      rw [hx, hq']
      simp [hih]

/-- C6 (amended).  A `count` rule writes to the root's target the number of
member spans that are not the (marked) root and satisfy the condition, as
an integer ≥ 0 — and it writes it even when that number is 0. -/
theorem c6_count_semantics (st : SubtraceState) (i : Nat) (agg : AttributeAggregation)
    (hagg : agg.aggregation = "count") (hi : i < st.spans.length)
    (hmark : ∀ j, (hj : j < st.spans.length) → (isRootMarked st.spans[j] = true ↔ j = i)) :
    ((applyAttributeAggregation st i agg).spans[i]?).map
        (fun e => e.span.attributes.get agg.target) =
      some (some (.intV (Int.ofNat
        ((st.spans.enum.filter fun p =>
            !decide (p.1 = i) &&
            (if agg.condition = "" then true
             else evaluateCondition p.2.span.attributes agg.condition)).length)))) ∧
    (0 : Int) ≤ Int.ofNat
        ((st.spans.enum.filter fun p =>
            !decide (p.1 = i) &&
            (if agg.condition = "" then true
             else evaluateCondition p.2.span.attributes agg.condition)).length) := by
  constructor
  · have hcount : (st.spans.foldl (attrAggStep agg) ([], 0)).2 =
        (st.spans.enum.filter fun p =>
            !decide (p.1 = i) &&
            (if agg.condition = "" then true
             else evaluateCondition p.2.span.attributes agg.condition)).length := by
      rw [attrAggStep_snd]
      simp only [Nat.zero_add]
      rw [List.enum_eq_enumFrom]
      refine length_filter_enumFrom _ _ st.spans 0 ?_
      intro j hj
      simp only [Nat.zero_add]
      by_cases hji : j = i
      · subst hji
        have hmm := (hmark j hj).mpr rfl
        simp [hmm]
      · have hm : isRootMarked st.spans[j] = false := by
          cases h : isRootMarked st.spans[j]
          · rfl
          · exact absurd ((hmark j hj).mp h) hji
        simp [hm, hji]
    simp only [applyAttributeAggregation]
    rw [if_neg (by simp [hagg])]
    rw [if_neg (by simp [hagg])]
    have hC : computeAggregation agg.aggregation (st.spans.foldl (attrAggStep agg) ([], 0)).1
        (st.spans.foldl (attrAggStep agg) ([], 0)).2 agg.maxValues =
        .intV (Int.ofNat (st.spans.foldl (attrAggStep agg) ([], 0)).2) := by
      rw [hagg]
      simp [computeAggregation]
    rw [hC]
    rw [if_neg (by simp [AnyValue.isEmptyV])]
    rw [modifySpanAt_getElem?, if_pos rfl, List.getElem?_eq_getElem hi]
    simp only [Option.map_some']
    rw [AttrMap.get_put, hcount]
  · exact Int.ofNat_nonneg _

theorem c6_count_semantics_witness :
    ((applyAttributeAggregation wState 0 wCountAgg).spans[0]?).map
        (fun e => e.span.attributes.get wCountAgg.target) =
      some (some (.intV (Int.ofNat
        ((wState.spans.enum.filter fun p =>
            !decide (p.1 = 0) &&
            (if wCountAgg.condition = "" then true
             else evaluateCondition p.2.span.attributes wCountAgg.condition)).length)))) ∧
    (0 : Int) ≤ Int.ofNat
        ((wState.spans.enum.filter fun p =>
            !decide (p.1 = 0) &&
            (if wCountAgg.condition = "" then true
             else evaluateCondition p.2.span.attributes wCountAgg.condition)).length) := by
  refine c6_count_semantics wState 0 wCountAgg rfl (by decide) ?_
  intro j hj
  have hlen : wState.spans.length = 2 := rfl
  rw [hlen] at hj
  interval_cases j
  · simp [wState, wRoot, isRootMarked, AttrMap.get, AnyValue.boolField]
  · simp [wState, wChild, isRootMarked, AttrMap.get, AnyValue.boolField]

theorem determineRoot_subtraceID (st : SubtraceState) :
    (determineRootSpan st).subtraceID = st.subtraceID := by
  by_cases he : st.spans.isEmpty
  · simp [determineRootSpan, he]
  · simp only [determineRootSpan, Bool.not_eq_true] at he ⊢
    rw [he]
    rcases rootCandidates st.spans with _ | ⟨c, _ | _⟩ <;> simp

theorem flushSubtrace_eq_apply (attrAggs : List AttributeAggregation)
    (eventAggs : List EventAggregation) (st : SubtraceState) (h : st.spans ≠ []) :
    flushSubtrace attrAggs eventAggs st =
      aggregatorApply attrAggs eventAggs (labelSpans (determineRootSpan st)) := by
  obtain ⟨i, hi, _⟩ := determineRoot_isSome st h
  simp only [flushSubtrace, labelSpans_rootIdx, hi, Option.isSome_some, if_true]

/-- The labeling loop at index `j`: `subtrace.id` is (over)written on every
span; `subtrace.is_root_span` is written on the root and left untouched
elsewhere. -/
theorem labelSpans_getElem (st : SubtraceState) (j : Nat) (e : SpanEntry)
    (h : st.spans[j]? = some e) :
    ∃ e', (labelSpans st).spans[j]? = some e' ∧
      e'.span.attributes.get "subtrace.id" = some (.str st.subtraceID) ∧
      (e'.span.attributes.get "subtrace.is_root_span" =
        if st.rootIdx = some j then some (.boolV true)
        else e.span.attributes.get "subtrace.is_root_span") := by
  have hkne : ("subtrace.id" : String) ≠ "subtrace.is_root_span" := by decide
  simp only [labelSpans, getElem?_mapIdx, h, Option.map_some']
  by_cases hroot : st.rootIdx = some j
  · refine ⟨_, rfl, ?_, ?_⟩
    · simp only [hroot, if_true]
      rw [AttrMap.get_put_ne _ _ _ _ hkne, AttrMap.get_put]
    · simp only [hroot, if_true]
      rw [AttrMap.get_put]
  · refine ⟨_, rfl, ?_, ?_⟩
    · simp only [hroot, if_false]
      rw [AttrMap.get_put]
    · simp only [hroot, if_false]
      rw [AttrMap.get_put_ne _ _ _ _ (Ne.symm hkne)]

/-- An attribute rule never changes any attribute other than its target. -/
theorem applyAttrAgg_get_preserved (st : SubtraceState) (i : Nat)
    (agg : AttributeAggregation) (k : String) (hk : agg.target ≠ k) (j : Nat) :
    ((applyAttributeAggregation st i agg).spans[j]?).map
        (fun e => e.span.attributes.get k) =
      (st.spans[j]?).map (fun e => e.span.attributes.get k) := by
  simp only [applyAttributeAggregation]
  split
  · rfl
  split
  · rfl
  split
  · rfl
  rw [modifySpanAt_getElem?]
  by_cases hji : j = i
  · rw [if_pos hji]
    cases h : st.spans[j]? <;>
      simp [AttrMap.get_put_ne _ agg.target k _ (Ne.symm hk)]
  · rw [if_neg hji]

/-- An event rule never changes any attribute other than its (count) target. -/
theorem applyEventAgg_get_preserved (st : SubtraceState) (i : Nat)
    (agg : EventAggregation) (k : String) (hk : agg.target ≠ k) (j : Nat) :
    ((applyEventAggregation st i agg).spans[j]?).map
        (fun e => e.span.attributes.get k) =
      (st.spans[j]?).map (fun e => e.span.attributes.get k) := by
  simp only [applyEventAggregation]
  split
  · rfl
  split
  · -- copy_event touches only events
    rw [modifySpanAt_getElem?]
    by_cases hji : j = i
    · rw [if_pos hji]
      cases h : st.spans[j]? <;> simp
    · rw [if_neg hji]
  split
  · rw [modifySpanAt_getElem?]
    by_cases hji : j = i
    · rw [if_pos hji]
      cases h : st.spans[j]? <;>
        simp [AttrMap.get_put_ne _ agg.target k _ (Ne.symm hk)]
    · rw [if_neg hji]
  · rfl

theorem foldAttr_get_preserved (i : Nat) (k : String) :
    ∀ (attrAggs : List AttributeAggregation) (st : SubtraceState) (j : Nat),
      (∀ a ∈ attrAggs, a.target ≠ k) →
      ((attrAggs.foldl (fun s a => applyAttributeAggregation s i a) st).spans[j]?).map
          (fun e => e.span.attributes.get k) =
        (st.spans[j]?).map (fun e => e.span.attributes.get k) := by
  intro attrAggs
  induction attrAggs with
  | nil =>
    intro st j _
    rfl
  | cons a as ih =>
    intro st j hmem
    rw [List.foldl_cons]
    rw [ih (applyAttributeAggregation st i a) j (fun b hb => hmem b (List.mem_cons_of_mem _ hb))]
    exact applyAttrAgg_get_preserved st i a k (hmem a (by simp)) j

theorem foldEvent_get_preserved (i : Nat) (k : String) :
    ∀ (eventAggs : List EventAggregation) (st : SubtraceState) (j : Nat),
      (∀ a ∈ eventAggs, a.target ≠ k) →
      ((eventAggs.foldl (fun s a => applyEventAggregation s i a) st).spans[j]?).map
          (fun e => e.span.attributes.get k) =
        (st.spans[j]?).map (fun e => e.span.attributes.get k) := by
  intro eventAggs
  induction eventAggs with
  | nil =>
    intro st j _
    rfl
  | cons a as ih =>
    intro st j hmem
    rw [List.foldl_cons]
    rw [ih (applyEventAggregation st i a) j (fun b hb => hmem b (List.mem_cons_of_mem _ hb))]
    exact applyEventAgg_get_preserved st i a k (hmem a (by simp)) j

theorem aggregatorApply_get_preserved (attrAggs : List AttributeAggregation)
    (eventAggs : List EventAggregation) (st : SubtraceState) (k : String)
    (h1 : ∀ a ∈ attrAggs, a.target ≠ k) (h2 : ∀ a ∈ eventAggs, a.target ≠ k) (j : Nat) :
    ((aggregatorApply attrAggs eventAggs st).spans[j]?).map
        (fun e => e.span.attributes.get k) =
      (st.spans[j]?).map (fun e => e.span.attributes.get k) := by
  simp only [aggregatorApply]
  cases hr : st.rootIdx with
  | none => rfl
  | some i =>
    rw [foldEvent_get_preserved i k eventAggs _ j h2,
      foldAttr_get_preserved i k attrAggs st j h1]

/-- C3 counterexample.  A span arriving with `subtrace.is_root_span=true`
keeps it: after a flush with no rules, both spans of this subtrace carry
`subtrace.is_root_span=true` — the attribute is not overwritten on non-root
spans and more than one span carries it. -/
theorem c3_preexisting_root_flag :
    (let spA : Span := { traceID := "t", spanID := "aa", parentSpanID := "", kind := .server,
                         startTimestamp := 0, attributes := [], events := [] }
     let spB : Span := { traceID := "t", spanID := "bb", parentSpanID := "aa", kind := .internal,
                         startTimestamp := 1,
                         attributes := [("subtrace.is_root_span", .boolV true)], events := [] }
     let st : SubtraceState := { spans := [{ span := spA, resourceHash := "A" },
                                           { span := spB, resourceHash := "A" }],
                                 rootIdx := none, subtraceID := "s", traceID := "t" }
     (flushSubtrace [] [] st).spans.map
        (fun e => e.span.attributes.get "subtrace.is_root_span")
       = [some (.boolV true), some (.boolV true)]) := rfl

/-- C3 (amended).  After flush, every emitted span has `subtrace.id` set to
the subtrace's id (pre-existing values overwritten) as long as no rule
targets the two reserved keys; the elected root carries
`subtrace.is_root_span=true`, and a non-root span carries it exactly when
it already carried `subtrace.is_root_span=true` on arrival (the attribute
is NOT overwritten there). -/
theorem c3_labeling (st : SubtraceState) (attrAggs : List AttributeAggregation)
    (eventAggs : List EventAggregation) (h : st.spans ≠ [])
    (hT1 : ∀ a ∈ attrAggs, a.target ≠ "subtrace.id" ∧ a.target ≠ "subtrace.is_root_span")
    (hT2 : ∀ a ∈ eventAggs, a.target ≠ "subtrace.id" ∧ a.target ≠ "subtrace.is_root_span") :
    ∃ r, (determineRootSpan st).rootIdx = some r ∧
      ∀ j e0, st.spans[j]? = some e0 →
        ∃ e, (flushSubtrace attrAggs eventAggs st).spans[j]? = some e ∧
          e.span.attributes.get "subtrace.id" = some (.str st.subtraceID) ∧
          (e.span.attributes.get "subtrace.is_root_span" = some (.boolV true) ↔
            (j = r ∨ e0.span.attributes.get "subtrace.is_root_span" = some (.boolV true))) := by
  obtain ⟨r, hr, hrlen⟩ := determineRoot_isSome st h
  refine ⟨r, hr, ?_⟩
  intro j e0 he0
  rw [flushSubtrace_eq_apply attrAggs eventAggs st h]
  have hspans1 : (determineRootSpan st).spans = st.spans := determineRoot_spans st
  have hsub1 : (determineRootSpan st).subtraceID = st.subtraceID := determineRoot_subtraceID st
  obtain ⟨e', he', hid', hroot'⟩ :=
    labelSpans_getElem (determineRootSpan st) j e0 (by rw [hspans1]; exact he0)
  have hidp := aggregatorApply_get_preserved attrAggs eventAggs
    (labelSpans (determineRootSpan st)) "subtrace.id"
    (fun a ha => (hT1 a ha).1) (fun a ha => (hT2 a ha).1) j
  have hrootp := aggregatorApply_get_preserved attrAggs eventAggs
    (labelSpans (determineRootSpan st)) "subtrace.is_root_span"
    (fun a ha => (hT1 a ha).2) (fun a ha => (hT2 a ha).2) j
  rw [he'] at hidp hrootp
  simp only [Option.map_some'] at hidp hrootp
  obtain ⟨e, he, hide⟩ := Option.map_eq_some'.mp hidp
  refine ⟨e, he, ?_, ?_⟩
  · rw [hide, hid', hsub1]
  · rw [he] at hrootp
    simp only [Option.map_some', Option.some.injEq] at hrootp
    rw [hrootp, hroot', hr]
    by_cases hjr : j = r
    · simp [hjr]
    · have : ¬(some r = some j) := by
        intro hh
        exact hjr (Option.some.injEq r j ▸ hh).symm
      rw [if_neg this]
      constructor
      · intro hpre
        exact Or.inr hpre
      · intro hor
        rcases hor with h1 | h1
        · exact absurd h1 hjr
        · exact h1

theorem c3_labeling_witness :
    ∃ r, (determineRootSpan wState).rootIdx = some r ∧
      ∀ j e0, wState.spans[j]? = some e0 →
        ∃ e, (flushSubtrace [] [] wState).spans[j]? = some e ∧
          e.span.attributes.get "subtrace.id" = some (.str wState.subtraceID) ∧
          (e.span.attributes.get "subtrace.is_root_span" = some (.boolV true) ↔
            (j = r ∨ e0.span.attributes.get "subtrace.is_root_span" = some (.boolV true))) :=
  c3_labeling wState [] [] (by simp [wState]) (by simp) (by simp)

/-! ### Association-list lemmas for the buffer -/

theorem assocGet_put_self {α : Type} (m : List (String × α)) (k : String) (v : α) :
    assocGet (assocPut m k v) k = some v := by
  induction m with
  | nil => simp [assocPut, assocGet]
  | cons p rest ih =>
    by_cases hp : p.1 = k
    · simp [assocPut, assocGet, hp]
    · simp [assocPut, assocGet, hp, ih]

theorem assocGet_put_ne {α : Type} (m : List (String × α)) (k k' : String) (v : α)
    (h : k' ≠ k) : assocGet (assocPut m k v) k' = assocGet m k' := by
  induction m with
  | nil => simp [assocPut, assocGet, Ne.symm h]
  | cons p rest ih =>
    by_cases hp : p.1 = k
    · by_cases hp' : p.1 = k'
      · rw [hp] at hp'
        exact absurd hp'.symm h
      · have hp'' : ¬k = k' := fun hh => h hh.symm
        simp [assocPut, assocGet, hp, hp'']
    · simp [assocPut, assocGet, hp, ih]

theorem assocGet_remove_ne {α : Type} (m : List (String × α)) (k k' : String)
    (h : k' ≠ k) : assocGet (assocRemove m k) k' = assocGet m k' := by
  induction m with
  | nil => simp [assocRemove, assocGet]
  | cons p rest ih =>
    by_cases hp : p.1 = k
    · have hp'' : ¬k = k' := fun hh => h hh.symm
      simp [assocRemove, assocGet, hp, hp'']
    · simp [assocRemove, assocGet, hp, ih]

theorem assocGet_none_of_not_mem {α : Type} (m : List (String × α)) (k : String)
    (h : k ∉ m.map Prod.fst) : assocGet m k = none := by
  induction m with
  | nil => rfl
  | cons p rest ih =>
    simp only [List.map_cons, List.mem_cons] at h
    push_neg at h
    have hp : ¬p.1 = k := fun hh => h.1 hh.symm
    simp [assocGet, hp, ih h.2]

theorem assocGet_remove_self {α : Type} (m : List (String × α)) (k : String)
    (h : (m.map Prod.fst).Nodup) : assocGet (assocRemove m k) k = none := by
  induction m with
  | nil => rfl
  | cons p rest ih =>
    simp only [List.map_cons, List.nodup_cons] at h
    by_cases hp : p.1 = k
    · simp only [assocRemove, if_pos hp]
      refine assocGet_none_of_not_mem rest k ?_
      rw [← hp]
      exact h.1
    · simp only [assocRemove, if_neg hp]
      simp [assocGet, hp, ih h.2]

theorem keys_put_subset {α : Type} (m : List (String × α)) (k : String) (v : α) :
    ∀ k', k' ∈ (assocPut m k v).map Prod.fst → k' ∈ m.map Prod.fst ∨ k' = k := by
  induction m with
  | nil =>
    intro k' h
    simp [assocPut] at h
    exact Or.inr h
  | cons p rest ih =>
    intro k' h
    by_cases hp : p.1 = k
    · simp only [assocPut, if_pos hp, List.map_cons, List.mem_cons] at h
      rcases h with h | h
      · exact Or.inl (by simp [h])
      · exact Or.inl (by simp [h])
    · simp only [assocPut, if_neg hp, List.map_cons, List.mem_cons] at h
      rcases h with h | h
      · exact Or.inl (by simp [h])
      · rcases ih k' h with h' | h'
        · exact Or.inl (by simp [h'])
        · exact Or.inr h'

theorem nodupKeys_put {α : Type} (m : List (String × α)) (k : String) (v : α)
    (h : (m.map Prod.fst).Nodup) : ((assocPut m k v).map Prod.fst).Nodup := by
  induction m with
  | nil => simp [assocPut]
  | cons p rest ih =>
    simp only [List.map_cons, List.nodup_cons] at h
    by_cases hp : p.1 = k
    · simp only [assocPut, if_pos hp, List.map_cons, List.nodup_cons]
      exact ⟨h.1, h.2⟩
    · simp only [assocPut, if_neg hp, List.map_cons, List.nodup_cons]
      refine ⟨?_, ih h.2⟩
      intro hmem
      rcases keys_put_subset rest k v p.1 hmem with h' | h'
      · exact h.1 h'
      · exact hp h'

theorem keys_remove_subset {α : Type} (m : List (String × α)) (k : String) :
    ∀ k', k' ∈ (assocRemove m k).map Prod.fst → k' ∈ m.map Prod.fst := by
  induction m with
  | nil => intro k' h; exact h
  | cons p rest ih =>
    intro k' h
    by_cases hp : p.1 = k
    · simp only [assocRemove, if_pos hp] at h
      exact List.mem_cons_of_mem _ h
    · simp only [assocRemove, if_neg hp, List.map_cons, List.mem_cons] at h
      rcases h with h | h
      · simp [h]
      · exact List.mem_cons_of_mem _ (ih k' h)

theorem nodupKeys_remove {α : Type} (m : List (String × α)) (k : String)
    (h : (m.map Prod.fst).Nodup) : ((assocRemove m k).map Prod.fst).Nodup := by
  induction m with
  | nil => simp [assocRemove]
  | cons p rest ih =>
    simp only [List.map_cons, List.nodup_cons] at h
    by_cases hp : p.1 = k
    · simp only [assocRemove, if_pos hp]
      exact h.2
    · simp only [assocRemove, if_neg hp, List.map_cons, List.nodup_cons]
      exact ⟨fun hmem => h.1 (keys_remove_subset rest k p.1 hmem), ih h.2⟩

/-- Generic fold-invariant preservation. -/
theorem foldl_pres {α β : Type} (f : β → α → β) (P : β → Prop)
    (hstep : ∀ bb a, P bb → P (f bb a)) :
    ∀ (l : List α) (bb : β), P bb → P (l.foldl f bb) := by
  intro l
  induction l with
  | nil => intro bb h; exact h
  | cons x xs ih =>
    intro bb h
    exact ih (f bb x) (hstep bb x h)

/-- The invariant carried through the buffering phase of a consume call:
the cap is unchanged, keys stay unique, and every trace either is below the
cap or is scheduled for flushing. -/
theorem consumeAdds_inv (now : Nat) (batch : List ResourceSpansIn) (b : BufState)
    (hnd : (b.traces.map Prod.fst).Nodup)
    (hinv : ∀ tid ts, assocGet b.traces tid = some ts → ts.spans.length < b.maxSpans) :
    (consumeAdds b now batch).1.maxSpans = b.maxSpans ∧
    (((consumeAdds b now batch).1.traces.map Prod.fst)).Nodup ∧
    (∀ tid ts, assocGet (consumeAdds b now batch).1.traces tid = some ts →
      ts.spans.length < b.maxSpans ∨ tid ∈ (consumeAdds b now batch).2) := by
  have hone : ∀ (rh : String) (acc : BufState × List String) (sp : Span),
      (acc.1.maxSpans = b.maxSpans ∧ (acc.1.traces.map Prod.fst).Nodup ∧
        (∀ tid ts, assocGet acc.1.traces tid = some ts →
          ts.spans.length < b.maxSpans ∨ tid ∈ acc.2)) →
      (let rr := bufferAdd acc.1 now rh sp
       ((rr.1, if rr.2 then acc.2 ++ [sp.traceID] else acc.2).1.maxSpans = b.maxSpans ∧
        ((rr.1, if rr.2 then acc.2 ++ [sp.traceID] else acc.2).1.traces.map Prod.fst).Nodup ∧
        (∀ tid ts,
          assocGet (rr.1, if rr.2 then acc.2 ++ [sp.traceID] else acc.2).1.traces tid = some ts →
          ts.spans.length < b.maxSpans ∨
            tid ∈ (rr.1, if rr.2 then acc.2 ++ [sp.traceID] else acc.2).2))) := by
    intro rh acc sp hacc
    obtain ⟨hmax, hnd', hbelow⟩ := hacc
    refine ⟨hmax, by simp only [bufferAdd]; exact nodupKeys_put _ _ _ hnd', ?_⟩
    intro tid ts hget
    simp only [bufferAdd] at hget ⊢
    by_cases htid : tid = sp.traceID
    · subst htid
      rw [assocGet_put_self] at hget
      have hts := (Option.some.injEq _ _).mp hget
      split
      · right
        simp
      · left
        rename_i hfull
        rw [← hts, ← hmax]
        simp only [decide_eq_true_eq] at hfull
        dsimp only
        omega
    · rw [assocGet_put_ne _ _ _ _ htid] at hget
      rcases hbelow tid ts hget with h | h
      · exact Or.inl h
      · right
        split
        · exact List.mem_append_left _ h
        · exact h
  have hmain := foldl_pres
    (fun acc rs =>
      let rh := hashResourceAttributes rs.resourceAttrs
      rs.scopeSpans.foldl
        (fun acc2 spans =>
          spans.foldl
            (fun (acc3 : BufState × List String) sp =>
              let rr := bufferAdd acc3.1 now rh sp
              (rr.1, if rr.2 then acc3.2 ++ [sp.traceID] else acc3.2))
            acc2)
        acc)
    (fun acc => acc.1.maxSpans = b.maxSpans ∧ (acc.1.traces.map Prod.fst).Nodup ∧
      (∀ tid ts, assocGet acc.1.traces tid = some ts →
        ts.spans.length < b.maxSpans ∨ tid ∈ acc.2))
    (by
      intro acc rs hacc
      refine foldl_pres _
        (fun acc => acc.1.maxSpans = b.maxSpans ∧ (acc.1.traces.map Prod.fst).Nodup ∧
          (∀ tid ts, assocGet acc.1.traces tid = some ts →
            ts.spans.length < b.maxSpans ∨ tid ∈ acc.2)) ?_ rs.scopeSpans acc hacc
      intro acc2 spans hacc2
      refine foldl_pres _
        (fun acc => acc.1.maxSpans = b.maxSpans ∧ (acc.1.traces.map Prod.fst).Nodup ∧
          (∀ tid ts, assocGet acc.1.traces tid = some ts →
            ts.spans.length < b.maxSpans ∨ tid ∈ acc.2)) ?_ spans acc2 hacc2
      intro acc3 sp hacc3
      exact hone (hashResourceAttributes rs.resourceAttrs) acc3 sp hacc3)
    batch (b, []) ⟨rfl, hnd, fun tid ts h => Or.inl (hinv tid ts h)⟩
  exact hmain

/-- After the flush phase, a surviving trace was already present (same
state) and was not scheduled for flushing; keys stay unique and the cap is
unchanged. -/
theorem flushStep_fst (acc : BufState × List TraceState) (tid : String) :
    (flushStep acc tid).1 = { acc.1 with traces := assocRemove acc.1.traces tid } := by
  simp only [flushStep, removeTrace]
  rcases assocGet acc.1.traces tid with _ | ts
  · rfl
  · by_cases he : ts.spans.isEmpty <;> simp [he]

theorem consumeFlushes_get (toFlush : List String) :
    ∀ (acc : BufState × List TraceState),
      (acc.1.traces.map Prod.fst).Nodup →
      (toFlush.foldl flushStep acc).1.maxSpans = acc.1.maxSpans ∧
      (((toFlush.foldl flushStep acc).1.traces.map Prod.fst).Nodup) ∧
      (∀ tid ts, assocGet (toFlush.foldl flushStep acc).1.traces tid = some ts →
        assocGet acc.1.traces tid = some ts ∧ tid ∉ toFlush) := by
  induction toFlush with
  | nil =>
    intro acc hnd
    exact ⟨rfl, hnd, fun tid ts h => ⟨h, by simp⟩⟩
  | cons hd tl ih =>
    intro acc hnd
    rw [List.foldl_cons]
    have hfst := flushStep_fst acc hd
    have hnd1 : (((flushStep acc hd).1.traces.map Prod.fst)).Nodup := by
      rw [hfst]
      exact nodupKeys_remove _ _ hnd
    obtain ⟨hmax, hndf, hget⟩ := ih (flushStep acc hd) hnd1
    refine ⟨by rw [hmax, hfst], hndf, ?_⟩
    intro tid ts h
    obtain ⟨hget1, hnotin⟩ := hget tid ts h
    rw [hfst] at hget1
    by_cases htid : tid = hd
    · subst htid
      rw [assocGet_remove_self _ _ hnd] at hget1
      cases hget1
    · rw [assocGet_remove_ne _ _ _ htid] at hget1
      refine ⟨hget1, ?_⟩
      intro hmem
      rcases List.mem_cons.mp hmem with h' | h'
      · exact htid h'
      · exact hnotin h'

/-- A single consume call preserves the buffer invariant: unique keys and
every remaining trace strictly below the cap. -/
theorem consumeTraces_inv (b : BufState) (now : Nat) (batch : List ResourceSpansIn)
    (hnd : (b.traces.map Prod.fst).Nodup)
    (hinv : ∀ tid ts, assocGet b.traces tid = some ts → ts.spans.length < b.maxSpans) :
    (consumeTraces b now batch).1.maxSpans = b.maxSpans ∧
    (((consumeTraces b now batch).1.traces.map Prod.fst)).Nodup ∧
    (∀ tid ts, assocGet (consumeTraces b now batch).1.traces tid = some ts →
      ts.spans.length < b.maxSpans) := by
  obtain ⟨hmax1, hnd1, hbelow1⟩ := consumeAdds_inv now batch b hnd hinv
  obtain ⟨hmax2, hnd2, hget2⟩ :=
    consumeFlushes_get (consumeAdds b now batch).2 ((consumeAdds b now batch).1, []) hnd1
  have hct : consumeTraces b now batch =
      (consumeAdds b now batch).2.foldl flushStep ((consumeAdds b now batch).1, []) := rfl
  refine ⟨?_, ?_, ?_⟩
  · rw [hct, hmax2, hmax1]
  · rw [hct]
    exact hnd2
  · intro tid ts h
    rw [hct] at h
    obtain ⟨hg, hni⟩ := hget2 tid ts h
    rcases hbelow1 tid ts hg with h' | h'
    · exact h'
    · exact absurd h' hni

/-- C9 counterexample.  With cap 2, one batch carrying three spans of the
same trace buffers all three before any flush: the trace state reaches 3
spans (exceeding the cap), and the single flush emits all 3 spans — the
overflow spans do not flush separately. -/
theorem c9_cap_exceeded_in_batch :
    ((assocGet (consumeAdds wBuf0 0 wBatch).1.traces "T").map fun ts => ts.spans.length)
        = some 3 ∧
    wBuf0.maxSpans = 2 ∧ 2 < 3 ∧
    ((consumeTraces wBuf0 0 wBatch).2.map fun ts => ts.spans.length) = [3] ∧
    (consumeTraces wBuf0 0 wBatch).1.traces = [] := by
  exact ⟨rfl, rfl, by norm_num, rfl, rfl⟩

/-- C9 (amended).  While a batch is being consumed a trace may exceed the
cap (flushes are deferred to the end of `ConsumeTraces`), but after every
consume call each trace remaining in the buffer is strictly below
`max_spans_per_trace`; and a span arriving for a trace not in the buffer
(e.g. after its flush) starts a fresh buffer entry containing only it. -/
theorem c9_cap_after_consume (maxSpans : Nat)
    (batches : List (Nat × List ResourceSpansIn)) :
    (∀ tid ts,
        assocGet (runConsumes { traces := [], maxSpans := maxSpans } batches).traces tid
          = some ts →
        ts.spans.length < maxSpans) ∧
    (∀ (b : BufState) (now : Nat) (rh : String) (sp : Span),
        assocGet b.traces sp.traceID = none →
        assocGet (bufferAdd b now rh sp).1.traces sp.traceID =
          some { spans := [{ span := sp, resourceHash := rh }], firstSeen := now }) := by
  constructor
  · have main : ∀ (bs : List (Nat × List ResourceSpansIn)) (b : BufState),
        (b.traces.map Prod.fst).Nodup →
        (∀ tid ts, assocGet b.traces tid = some ts → ts.spans.length < b.maxSpans) →
        ((runConsumes b bs).maxSpans = b.maxSpans ∧
         ((runConsumes b bs).traces.map Prod.fst).Nodup ∧
         ∀ tid ts, assocGet (runConsumes b bs).traces tid = some ts →
           ts.spans.length < b.maxSpans) := by
      intro bs
      induction bs with
      | nil =>
        intro b h1 h2
        exact ⟨rfl, h1, h2⟩
      | cons nb rest ih =>
        intro b h1 h2
        obtain ⟨hm, hn, hb⟩ := consumeTraces_inv b nb.1 nb.2 h1 h2
        have hrec := ih (consumeTraces b nb.1 nb.2).1 hn (by rw [hm]; exact hb)
        have hstep : runConsumes b (nb :: rest) =
            runConsumes (consumeTraces b nb.1 nb.2).1 rest := rfl
        rw [hstep]
        refine ⟨by rw [hrec.1, hm], hrec.2.1, ?_⟩
        intro tid ts h
        have := hrec.2.2 tid ts h
        rw [hm] at this
        exact this
    intro tid ts h
    have h0 := (main batches { traces := [], maxSpans := maxSpans }
      (by simp) (by intro tid ts hh; cases hh)).2.2 tid ts h
    exact h0
  · intro b now rh sp hnone
    simp only [bufferAdd, hnone, Option.getD_none]
    rw [assocGet_put_self]
    simp

theorem c9_cap_after_consume_witness :
    (1 : Nat) < 2 ∧
    assocGet (runConsumes { traces := [], maxSpans := 2 } [(0, wSmallBatch)]).traces "T" =
      some { spans := [{ span := wSpanT "x1", resourceHash := hashResourceAttributes [] }],
             firstSeen := 0 } ∧
    assocGet (bufferAdd wBuf0 0 "rh" (wSpanT "x1")).1.traces "T" =
      some { spans := [{ span := wSpanT "x1", resourceHash := "rh" }], firstSeen := 0 } := by
  refine ⟨?_, rfl, ?_⟩
  · exact (c9_cap_after_consume 2 [(0, wSmallBatch)]).1 "T"
      { spans := [{ span := wSpanT "x1", resourceHash := hashResourceAttributes [] }],
        firstSeen := 0 } (by rfl)
  · exact (c9_cap_after_consume 2 []).2 wBuf0 0 "rh" (wSpanT "x1") (by rfl)


/-! ### Assignment: basic state and lookup lemmas -/

theorem AssignSt.find_insert_self (st : AssignSt) (k : String) (c : Nat) :
    (st.insert k c).find k = some c := by
  simp [AssignSt.find, AssignSt.insert, assocGet_put_self]

theorem AssignSt.find_insert_ne (st : AssignSt) (k k' : String) (c : Nat)
    (h : k' ≠ k) : (st.insert k c).find k' = st.find k' := by
  simp [AssignSt.find, AssignSt.insert, assocGet_put_ne _ _ _ _ h]

theorem AssignSt.find_fresh_self (st : AssignSt) (k : String) :
    (st.fresh k).2.find k = some st.counter := by
  simp [AssignSt.find, AssignSt.fresh, assocGet_put_self]

theorem AssignSt.find_fresh_ne (st : AssignSt) (k k' : String)
    (h : k' ≠ k) : (st.fresh k).2.find k' = st.find k' := by
  simp [AssignSt.find, AssignSt.fresh, assocGet_put_ne _ _ _ _ h]

theorem AssignSt.counter_fresh (st : AssignSt) (k : String) :
    (st.fresh k).2.counter = st.counter + 1 := rfl

theorem AssignSt.counter_insert (st : AssignSt) (k : String) (c : Nat) :
    (st.insert k c).counter = st.counter := rfl

theorem AssignSt.fst_fresh (st : AssignSt) (k : String) :
    (st.fresh k).1 = st.counter := rfl

theorem byId_sid (spans : List SpanEntry) (k : String) (e : SpanEntry)
    (h : byId spans k = some e) : e.span.spanID = k := by
  have := List.find?_some h
  simpa using this

theorem byId_mem (spans : List SpanEntry) (k : String) (e : SpanEntry)
    (h : byId spans k = some e) : e ∈ spans := by
  have := List.mem_of_find?_eq_some h
  simpa using this

theorem byId_self (spans : List SpanEntry)
    (hnodup : (spans.map fun e => e.span.spanID).Nodup)
    (e : SpanEntry) (he : e ∈ spans) : byId spans e.span.spanID = some e := by
  have hex : ∃ x ∈ spans.reverse, (x.span.spanID == e.span.spanID) = true := by
    exact ⟨e, by simpa using he, by simp⟩
  have hsome : (spans.reverse.find? fun x => x.span.spanID == e.span.spanID).isSome := by
    rw [List.find?_isSome]
    exact hex
  obtain ⟨f, hf⟩ := Option.isSome_iff_exists.mp hsome
  have hfk : f.span.spanID = e.span.spanID := by
    have := List.find?_some hf
    simpa using this
  have hfm : f ∈ spans := by
    have := List.mem_of_find?_eq_some hf
    simpa using this
  have hfe : f = e :=
    List.inj_on_of_nodup_map hnodup hfm he hfk
  rw [byId, hf, hfe]


/-! ### Assignment: descent-chain lemmas -/

/-- Keys whose binding changes during one `assignSpanF` frame all lie on the
dynamic descent chain. -/
theorem assign_new_keys (lookup : String → Option SpanEntry) :
    ∀ (fuel : Nat) (e : SpanEntry) (st : AssignSt) (c : Nat) (st' : AssignSt),
      assignSpanF lookup fuel e st = some (c, st') →
      ∀ k, st'.find k ≠ st.find k → k ∈ dynChain lookup st fuel e := by
  intro fuel
  induction fuel with
  | zero => intro e st c st' h; simp [assignSpanF] at h
  | succ n ih =>
    intro e st c st' h k hk
    rw [assignSpanF] at h
    rw [dynChain]
    cases hm : st.find e.span.spanID with
    | some c0 =>
      simp only [hm, Option.some.injEq, Prod.mk.injEq] at h
      rw [← h.2] at hk
      exact absurd rfl hk
    | none =>
      simp only [hm] at h ⊢
      cases hl : lookup e.span.parentSpanID with
      | none =>
        simp only [hl, Option.some.injEq] at h ⊢
        have hst : st' = (st.fresh e.span.spanID).2 := (congrArg Prod.snd h).symm
        by_cases hke : k = e.span.spanID
        · simp [hke]
        · rw [hst, AssignSt.find_fresh_ne st _ k hke] at hk
          exact absurd rfl hk
      | some p =>
        simp only [hl] at h ⊢
        by_cases hpid : e.span.parentSpanID = ""
        · rw [if_pos hpid] at h ⊢
          have h' := Option.some.inj h
          have hst : st' = (st.fresh e.span.spanID).2 := (congrArg Prod.snd h').symm
          by_cases hke : k = e.span.spanID
          · simp [hke]
          · rw [hst, AssignSt.find_fresh_ne st _ k hke] at hk
            exact absurd rfl hk
        · rw [if_neg hpid] at h ⊢
          cases hrec : assignSpanF lookup n p st with
          | none => rw [hrec] at h; simp at h
          | some pr =>
            obtain ⟨pc, st1⟩ := pr
            simp only [hrec] at h
            by_cases hke : k = e.span.spanID
            · simp [hke]
            · refine List.mem_cons_of_mem _ (ih p st pc st1 hrec k ?_)
              intro h1
              apply hk
              cases hb : shouldStartNewSubtrace p e with
              | true =>
                rw [if_pos hb] at h
                have h' := Option.some.inj h
                have hst : st' = (st1.fresh e.span.spanID).2 :=
                  (congrArg Prod.snd h').symm
                rw [hst, AssignSt.find_fresh_ne st1 _ k hke, h1]
              | false =>
                have hb' : ¬shouldStartNewSubtrace p e = true := by simp [hb]
                rw [if_neg hb'] at h
                simp only [Option.some.injEq, Prod.mk.injEq] at h
                rw [← h.2, AssignSt.find_insert_ne st1 _ k pc hke, h1]


/-- If a descent chain from `y` visits the id of a canonically looked-up span
`e`, then `e` is step-reachable from `y`. -/
theorem dynChain_reach (lookup : String → Option SpanEntry) (st : AssignSt)
    (e : SpanEntry)
    (hlu : ∀ k s, lookup k = some s → s.span.spanID = k)
    (hcan : lookup e.span.spanID = some e) :
    ∀ (fuel : Nat) (y : SpanEntry),
      (y = e ∨ ∃ ky, lookup ky = some y) →
      e.span.spanID ∈ dynChain lookup st fuel y →
      Relation.ReflTransGen (ChainStep lookup st) y e := by
  have hid : ∀ y : SpanEntry, (y = e ∨ ∃ ky, lookup ky = some y) →
      y.span.spanID = e.span.spanID → y = e := by
    rintro y (rfl | ⟨ky, hky⟩) hsid
    · rfl
    · have hyk : y.span.spanID = ky := hlu ky y hky
      rw [hyk] at hsid
      rw [hsid] at hky
      rw [hcan] at hky
      exact (Option.some.inj hky).symm
  intro fuel
  induction fuel with
  | zero => intro y _ hmem; simp [dynChain] at hmem
  | succ n ih =>
    intro y hy hmem
    rw [dynChain] at hmem
    cases hm : st.find y.span.spanID with
    | some c => simp only [hm] at hmem; simp at hmem
    | none =>
      simp only [hm] at hmem
      cases hl : lookup y.span.parentSpanID with
      | none =>
        simp only [hl, List.mem_singleton] at hmem
        rw [hid y hy hmem.symm]
      | some p =>
        simp only [hl] at hmem
        by_cases hpid : y.span.parentSpanID = ""
        · rw [if_pos hpid] at hmem
          rw [List.mem_singleton] at hmem
          rw [hid y hy hmem.symm]
        · rw [if_neg hpid] at hmem
          rcases List.mem_cons.mp hmem with heq | htail
          · rw [hid y hy heq.symm]
          · exact Relation.ReflTransGen.head (ChainStep.mk y p hm hpid hl)
              (ih p (Or.inr ⟨_, hl⟩) htail)

/-- When the parent chain from `e` loops back to `e`, the memoized recursion
never terminates: `assignSpanF` returns `none` for every fuel, from any
point that reaches `e`. -/
theorem assign_cycle_none (lookup : String → Option SpanEntry) (st : AssignSt)
    (e p : SpanEntry)
    (hm : st.find e.span.spanID = none) (hpid : e.span.parentSpanID ≠ "")
    (hl : lookup e.span.parentSpanID = some p)
    (hreach : Relation.ReflTransGen (ChainStep lookup st) p e) :
    ∀ (fuel : Nat) (y : SpanEntry),
      Relation.ReflTransGen (ChainStep lookup st) y e →
      assignSpanF lookup fuel y st = none := by
  intro fuel
  induction fuel with
  | zero => intro y _; rfl
  | succ n ih =>
    intro y hy
    rcases Relation.ReflTransGen.cases_head hy with rfl | ⟨z, hstep, hz⟩
    · rw [assignSpanF]
      simp only [hm, hl]
      rw [if_neg hpid]
      simp only [ih p hreach]
    · rcases hstep with ⟨hm', hpid', hl'⟩
      rw [assignSpanF]
      simp only [hm', hl']
      rw [if_neg hpid']
      simp only [ih z hz]


/-! ### Assignment: invariant preservation helpers -/

theorem WFA_fresh (st : AssignSt) (k : String) (hW : WFA st) :
    WFA (st.fresh k).2 := by
  intro k' c' hfind
  rw [AssignSt.counter_fresh]
  by_cases hk : k' = k
  · rw [hk, AssignSt.find_fresh_self] at hfind
    rw [← Option.some.inj hfind]
    omega
  · rw [AssignSt.find_fresh_ne st k k' hk] at hfind
    have := hW k' c' hfind
    omega

theorem WFA_insert_lt (st : AssignSt) (k : String) (c : Nat) (hW : WFA st)
    (hc : c < st.counter) : WFA (st.insert k c) := by
  intro k' c' hfind
  rw [AssignSt.counter_insert]
  by_cases hk : k' = k
  · rw [hk, AssignSt.find_insert_self] at hfind
    rw [← Option.some.inj hfind]
    exact hc
  · rw [AssignSt.find_insert_ne st k k' c hk] at hfind
    exact hW k' c' hfind

theorem FreshInj_fresh (lookup : String → Option SpanEntry) (st : AssignSt)
    (k : String) (hW : WFA st) (hF : FreshInj lookup st) :
    FreshInj lookup (st.fresh k).2 := by
  intro s1 s2 c h1 h2 hf1 hf2 ha hb
  by_cases e1 : s1.span.spanID = k <;> by_cases e2 : s2.span.spanID = k
  · rw [e1, e2]
  · rw [e1, AssignSt.find_fresh_self] at ha
    rw [AssignSt.find_fresh_ne st k _ e2] at hb
    have hlt := hW _ _ hb
    rw [← Option.some.inj ha] at hlt
    omega
  · rw [e2, AssignSt.find_fresh_self] at hb
    rw [AssignSt.find_fresh_ne st k _ e1] at ha
    have hlt := hW _ _ ha
    rw [← Option.some.inj hb] at hlt
    omega
  · rw [AssignSt.find_fresh_ne st k _ e1] at ha
    rw [AssignSt.find_fresh_ne st k _ e2] at hb
    exact hF s1 s2 c h1 h2 hf1 hf2 ha hb

theorem FreshInj_insert_nonfresh (lookup : String → Option SpanEntry)
    (st : AssignSt) (k : String) (c : Nat)
    (hnf : ∀ s, lookup k = some s → ¬isFreshSpan lookup s)
    (hF : FreshInj lookup st) : FreshInj lookup (st.insert k c) := by
  intro s1 s2 c' h1 h2 hf1 hf2 ha hb
  by_cases e1 : s1.span.spanID = k
  · rw [e1] at h1
    exact absurd hf1 (hnf s1 h1)
  · by_cases e2 : s2.span.spanID = k
    · rw [e2] at h2
      exact absurd hf2 (hnf s2 h2)
    · rw [AssignSt.find_insert_ne st k _ c e1] at ha
      rw [AssignSt.find_insert_ne st k _ c e2] at hb
      exact hF s1 s2 c' h1 h2 hf1 hf2 ha hb

theorem KeyProp_mono (lookup : String → Option SpanEntry) (st st2 : AssignSt)
    (k : String) (v : Nat) (hK : KeyProp lookup st k v)
    (pres : ∀ k' w, st.find k' = some w → st2.find k' = some w) :
    KeyProp lookup st2 k v := by
  intro s p hs hpid hp
  obtain ⟨w, hw, hiff⟩ := hK s p hs hpid hp
  exact ⟨w, pres _ _ hw, hiff⟩

theorem pres_fresh_unbound (st : AssignSt) (k : String)
    (hm : st.find k = none) :
    ∀ k' w, st.find k' = some w → (st.fresh k).2.find k' = some w := by
  intro k' w hw
  by_cases hk : k' = k
  · rw [hk, hm] at hw
    exact Option.noConfusion hw
  · rw [AssignSt.find_fresh_ne st k k' hk]
    exact hw

theorem pres_insert_unbound (st : AssignSt) (k : String) (c : Nat)
    (hm : st.find k = none) :
    ∀ k' w, st.find k' = some w → (st.insert k c).find k' = some w := by
  intro k' w hw
  by_cases hk : k' = k
  · rw [hk, hm] at hw
    exact Option.noConfusion hw
  · rw [AssignSt.find_insert_ne st k k' c hk]
    exact hw


/-- Master specification of one `assignSpanF` frame: well-formedness, fresh-key
injectivity and the per-key boundary relation are preserved, the counter is
monotone, the frame's span ends up bound to the returned counter, and existing
bindings persist unchanged. -/
theorem assign_frame (lookup : String → Option SpanEntry)
    (hlu : ∀ k s, lookup k = some s → s.span.spanID = k) :
    ∀ (fuel : Nat) (e : SpanEntry) (st : AssignSt) (c : Nat) (st' : AssignSt),
      lookup e.span.spanID = some e →
      WFA st → FreshInj lookup st → AllKeyProp lookup st →
      assignSpanF lookup fuel e st = some (c, st') →
      WFA st' ∧ FreshInj lookup st' ∧ AllKeyProp lookup st' ∧
        st.counter ≤ st'.counter ∧ st'.find e.span.spanID = some c ∧
        ∀ k v, st.find k = some v → st'.find k = some v := by
  intro fuel
  induction fuel with
  | zero => intro e st c st' _ _ _ _ h; simp [assignSpanF] at h
  | succ n ih =>
    intro e st c st' hcan hW hF hA h
    rw [assignSpanF] at h
    cases hm : st.find e.span.spanID with
    | some c0 =>
      simp only [hm, Option.some.injEq, Prod.mk.injEq] at h
      obtain ⟨hc, hst⟩ := h
      rw [← hst]
      exact ⟨hW, hF, hA, le_refl _, by rw [hm, hc], fun k v hv => hv⟩
    | none =>
      simp only [hm] at h
      cases hl : lookup e.span.parentSpanID with
      | none =>
        simp only [hl, Option.some.injEq] at h
        have hc : st.counter = c := congrArg Prod.fst h
        have hst : (st.fresh e.span.spanID).2 = st' := congrArg Prod.snd h
        subst hst
        refine ⟨WFA_fresh st _ hW, FreshInj_fresh lookup st _ hW hF, ?_, ?_, ?_,
          pres_fresh_unbound st _ hm⟩
        · intro k' v hfind
          by_cases hk : k' = e.span.spanID
          · intro s p' hs hpid' hp'
            rw [hk] at hs
            have hse : s = e := Option.some.inj (hs.symm.trans hcan)
            subst hse
            rw [hl] at hp'
            exact Option.noConfusion hp'
          · rw [AssignSt.find_fresh_ne st _ k' hk] at hfind
            exact KeyProp_mono lookup st _ k' v (hA k' v hfind)
              (pres_fresh_unbound st _ hm)
        · rw [AssignSt.counter_fresh]
          omega
        · rw [AssignSt.find_fresh_self, hc]
      | some p =>
        simp only [hl] at h
        by_cases hpid : e.span.parentSpanID = ""
        · rw [if_pos hpid] at h
          have h' := Option.some.inj h
          have hc : st.counter = c := congrArg Prod.fst h'
          have hst : (st.fresh e.span.spanID).2 = st' := congrArg Prod.snd h'
          subst hst
          refine ⟨WFA_fresh st _ hW, FreshInj_fresh lookup st _ hW hF, ?_, ?_, ?_,
            pres_fresh_unbound st _ hm⟩
          · intro k' v hfind
            by_cases hk : k' = e.span.spanID
            · intro s p' hs hpid' hp'
              rw [hk] at hs
              have hse : s = e := Option.some.inj (hs.symm.trans hcan)
              subst hse
              exact absurd hpid hpid'
            · rw [AssignSt.find_fresh_ne st _ k' hk] at hfind
              exact KeyProp_mono lookup st _ k' v (hA k' v hfind)
                (pres_fresh_unbound st _ hm)
          · rw [AssignSt.counter_fresh]
            omega
          · rw [AssignSt.find_fresh_self, hc]
        · rw [if_neg hpid] at h
          cases hrec : assignSpanF lookup n p st with
          | none => rw [hrec] at h; simp at h
          | some pr =>
            obtain ⟨pc, st1⟩ := pr
            simp only [hrec] at h
            have hpcan : lookup p.span.spanID = some p := by
              rw [hlu _ _ hl]
              exact hl
            obtain ⟨W1, F1, A1, mono1, hres1, pres1⟩ :=
              ih p st pc st1 hpcan hW hF hA hrec
            have hD : st1.find e.span.spanID = none := by
              by_contra hne
              have hdiff : st1.find e.span.spanID ≠ st.find e.span.spanID := by
                rw [hm]
                exact hne
              have hchain := assign_new_keys lookup n p st pc st1 hrec
                e.span.spanID hdiff
              have hreach := dynChain_reach lookup st e hlu hcan n p
                (Or.inr ⟨_, hl⟩) hchain
              have hnone := assign_cycle_none lookup st e p hm hpid hl hreach n p hreach
              rw [hnone] at hrec
              exact Option.noConfusion hrec
            have hpe : p.span.spanID ≠ e.span.spanID := by
              intro hh
              rw [hh, hD] at hres1
              exact Option.noConfusion hres1
            have hppid : e.span.parentSpanID = p.span.spanID := (hlu _ _ hl).symm
            cases hb : shouldStartNewSubtrace p e with
            | true =>
              rw [if_pos hb] at h
              have h' := Option.some.inj h
              have hc : st1.counter = c := congrArg Prod.fst h'
              have hst : (st1.fresh e.span.spanID).2 = st' := congrArg Prod.snd h'
              subst hst
              refine ⟨WFA_fresh st1 _ W1, FreshInj_fresh lookup st1 _ W1 F1,
                ?_, ?_, ?_, ?_⟩
              · intro k' v hfind
                by_cases hk : k' = e.span.spanID
                · rw [hk, AssignSt.find_fresh_self] at hfind
                  have hv : v = st1.counter := (Option.some.inj hfind).symm
                  intro s p' hs hpid' hp'
                  rw [hk] at hs
                  have hse : s = e := Option.some.inj (hs.symm.trans hcan)
                  subst hse
                  have hpp : p' = p := Option.some.inj (hp'.symm.trans hl)
                  subst hpp
                  refine ⟨pc, ?_, ?_⟩
                  · rw [hppid, AssignSt.find_fresh_ne st1 _ _ hpe]
                    exact hres1
                  · constructor
                    · intro hvw
                      have := W1 _ _ hres1
                      rw [hv] at hvw
                      omega
                    · intro hbf
                      exact Bool.noConfusion (hb.symm.trans hbf)
                · rw [AssignSt.find_fresh_ne st1 _ k' hk] at hfind
                  exact KeyProp_mono lookup st1 _ k' v (A1 k' v hfind)
                    (pres_fresh_unbound st1 _ hD)
              · rw [AssignSt.counter_fresh]
                omega
              · rw [AssignSt.find_fresh_self, hc]
              · intro k v hv
                exact pres_fresh_unbound st1 _ hD k v (pres1 k v hv)
            | false =>
              have hb' : ¬shouldStartNewSubtrace p e = true := by simp [hb]
              rw [if_neg hb'] at h
              have h' := Option.some.inj h
              have hc : pc = c := congrArg Prod.fst h'
              have hst : st1.insert e.span.spanID pc = st' := congrArg Prod.snd h'
              subst hst
              have hpclt : pc < st1.counter := W1 _ _ hres1
              refine ⟨WFA_insert_lt st1 _ pc W1 hpclt, ?_, ?_, ?_, ?_, ?_⟩
              · refine FreshInj_insert_nonfresh lookup st1 _ pc ?_ F1
                intro s hs hfs
                have hse : s = e := Option.some.inj (hs.symm.trans hcan)
                subst hse
                rcases hfs with hno | hemp | ⟨q, hq, hbq⟩
                · rw [hl] at hno
                  exact Option.noConfusion hno
                · exact hpid hemp
                · have hqp : q = p := Option.some.inj (hq.symm.trans hl)
                  rw [hqp] at hbq
                  exact Bool.noConfusion (hb.symm.trans hbq)
              · intro k' v hfind
                by_cases hk : k' = e.span.spanID
                · rw [hk, AssignSt.find_insert_self] at hfind
                  have hv : v = pc := (Option.some.inj hfind).symm
                  intro s p' hs hpid' hp'
                  rw [hk] at hs
                  have hse : s = e := Option.some.inj (hs.symm.trans hcan)
                  subst hse
                  have hpp : p' = p := Option.some.inj (hp'.symm.trans hl)
                  subst hpp
                  refine ⟨pc, ?_, ?_⟩
                  · rw [hppid, AssignSt.find_insert_ne st1 _ _ pc hpe]
                    exact hres1
                  · constructor
                    · intro _
                      exact hb
                    · intro _
                      rw [hv]
                · rw [AssignSt.find_insert_ne st1 _ k' pc hk] at hfind
                  exact KeyProp_mono lookup st1 _ k' v (A1 k' v hfind)
                    (pres_insert_unbound st1 _ pc hD)
              · rw [AssignSt.counter_insert]
                exact mono1
              · rw [AssignSt.find_insert_self, hc]
              · intro k v hv
                exact pres_insert_unbound st1 _ pc hD k v (pres1 k v hv)


/-- A `none` accumulator is absorbing for the assignment fold. -/
theorem assignFold_none (lookup : String → Option SpanEntry) (F : Nat) :
    ∀ (m : List SpanEntry),
      m.foldl (fun acc e => acc.bind fun st =>
        (assignSpanF lookup F e st).map Prod.snd) none = none := by
  intro m
  induction m with
  | nil => rfl
  | cons e m' ihm => simp [ihm]

/-- The assignment fold preserves the invariants, keeps existing bindings and
assigns every processed span. -/
theorem assignAll_fold (lookup : String → Option SpanEntry) (F : Nat)
    (hlu : ∀ k s, lookup k = some s → s.span.spanID = k) :
    ∀ (l : List SpanEntry) (st0 : AssignSt),
      (∀ e ∈ l, lookup e.span.spanID = some e) →
      WFA st0 → FreshInj lookup st0 → AllKeyProp lookup st0 →
      ∀ st, l.foldl (fun acc e => acc.bind fun st =>
          (assignSpanF lookup F e st).map Prod.snd) (some st0) = some st →
        WFA st ∧ FreshInj lookup st ∧ AllKeyProp lookup st ∧
          (∀ k v, st0.find k = some v → st.find k = some v) ∧
          ∀ e ∈ l, ∃ c, st.find e.span.spanID = some c := by
  intro l
  induction l with
  | nil =>
    intro st0 _ hW hF hA st h
    rw [List.foldl_nil] at h
    rw [← Option.some.inj h]
    exact ⟨hW, hF, hA, fun k v hv => hv, fun e he => absurd he (List.not_mem_nil e)⟩
  | cons e l' ihl =>
    intro st0 hmemb hW hF hA st h
    rw [List.foldl_cons] at h
    cases hstep : assignSpanF lookup F e st0 with
    | none =>
      rw [show ((some st0).bind fun st =>
          (assignSpanF lookup F e st).map Prod.snd) = none by simp [hstep]] at h
      rw [assignFold_none] at h
      exact Option.noConfusion h
    | some pr =>
      obtain ⟨c1, st1⟩ := pr
      obtain ⟨W1, F1, A1, _, hres1, pres1⟩ :=
        assign_frame lookup hlu F e st0 c1 st1
          (hmemb e (List.mem_cons_self e l')) hW hF hA hstep
      rw [show ((some st0).bind fun st =>
          (assignSpanF lookup F e st).map Prod.snd) = some st1 by simp [hstep]] at h
      obtain ⟨W2, F2, A2, pres2, tot2⟩ :=
        ihl st1 (fun x hx => hmemb x (List.mem_cons_of_mem e hx)) W1 F1 A1 st h
      refine ⟨W2, F2, A2, fun k v hv => pres2 k v (pres1 k v hv), ?_⟩
      intro x hx
      rcases List.mem_cons.mp hx with rfl | hx'
      · exact ⟨c1, pres2 _ _ hres1⟩
      · exact tot2 x hx'

/-- Top-level specification of `assignAll` on a trace with unique span ids. -/
theorem assignAll_spec (spans : List SpanEntry)
    (hnodup : (spans.map fun e => e.span.spanID).Nodup)
    (st : AssignSt) (h : assignAll spans = some st) :
    WFA st ∧ FreshInj (byId spans) st ∧ AllKeyProp (byId spans) st ∧
      ∀ e ∈ spans, ∃ c, st.find e.span.spanID = some c := by
  have hW0 : WFA ⟨[], 0⟩ := by
    intro k c hf
    exact Option.noConfusion hf
  have hF0 : FreshInj (byId spans) ⟨[], 0⟩ := by
    intro s1 s2 c _ _ _ _ ha _
    exact Option.noConfusion ha
  have hA0 : AllKeyProp (byId spans) ⟨[], 0⟩ := by
    intro k v hf
    exact Option.noConfusion hf
  rw [assignAll] at h
  obtain ⟨hW, hF, hA, _, htot⟩ :=
    assignAll_fold (byId spans) (spans.length + 1) (byId_sid spans) spans ⟨[], 0⟩
      (fun e he => byId_self spans hnodup e he) hW0 hF0 hA0 st h
  exact ⟨hW, hF, hA, htot⟩


/-- C1: whenever the assignment of a non-cyclic trace completes, a buffered
span whose parent is present in the trace shares its parent's subtrace exactly
when `shouldStartNewSubtrace` (resource hash differs, or normalized child kind
is an entry point while the parent's is not) is false; every span with an empty
or absent parent id is assigned a subtrace; and two subtrace-opening spans
never share a subtrace. -/
theorem c1_boundary_rule (ts : TraceState)
    (hnodup : (ts.spans.map fun e => e.span.spanID).Nodup)
    (st : AssignSt) (hterm : assignAll ts.spans = some st) :
    (∀ e ∈ ts.spans, ∀ p, e.span.parentSpanID ≠ "" →
        byId ts.spans e.span.parentSpanID = some p →
        (st.find e.span.spanID = st.find p.span.spanID ↔
          shouldStartNewSubtrace p e = false)) ∧
    (∀ e ∈ ts.spans, ∃ c, st.find e.span.spanID = some c) ∧
    (∀ e1 ∈ ts.spans, ∀ e2 ∈ ts.spans,
      isFreshSpan (byId ts.spans) e1 → isFreshSpan (byId ts.spans) e2 →
      st.find e1.span.spanID = st.find e2.span.spanID →
      e1.span.spanID = e2.span.spanID) := by
  obtain ⟨hW, hF, hA, htot⟩ := assignAll_spec ts.spans hnodup st hterm
  refine ⟨?_, htot, ?_⟩
  · intro e he p hpid hp
    obtain ⟨c, hc⟩ := htot e he
    obtain ⟨w, hw, hiff⟩ :=
      hA e.span.spanID c hc e p (byId_self ts.spans hnodup e he) hpid hp
    have hsid : p.span.spanID = e.span.parentSpanID := byId_sid ts.spans _ p hp
    rw [hc, hsid, hw]
    constructor
    · intro h1
      exact hiff.mp (Option.some.inj h1)
    · intro h2
      rw [hiff.mpr h2]
  · intro e1 he1 e2 he2 hf1 hf2 heq
    obtain ⟨c1, hc1⟩ := htot e1 he1
    obtain ⟨c2, hc2⟩ := htot e2 he2
    have hcc : c1 = c2 := by
      rw [hc1, hc2] at heq
      exact Option.some.inj heq
    exact hF e1 e2 c1 (byId_self _ hnodup e1 he1) (byId_self _ hnodup e2 he2)
      hf1 hf2 hc1 (by rw [hc2, hcc])

theorem c1_boundary_rule_witness :
    (wTraceA.spans.map fun e => e.span.spanID).Nodup ∧
    assignAll wTraceA.spans = some ((assignAll wTraceA.spans).getD ⟨[], 0⟩) ∧
    (∀ e ∈ wTraceA.spans, ∃ c,
      ((assignAll wTraceA.spans).getD ⟨[], 0⟩).find e.span.spanID = some c) :=
  ⟨by decide, rfl,
    (c1_boundary_rule wTraceA (by decide) ((assignAll wTraceA.spans).getD ⟨[], 0⟩)
      rfl).2.1⟩


/-- C2 counterexample: on a parent-pointer cycle the assignment recursion
never terminates (modelled as `none`), so no subtraces at all are produced
for this non-empty trace. -/
theorem c2_cycle_no_subtraces :
    wCyc.spans ≠ [] ∧ assignSubtraces wCyc "tid" = none :=
  ⟨by simp [wCyc], rfl⟩

/-- The `none` on the cycle is not a fuel artifact: for every fuel the
recursion is still running. -/
theorem cycle_diverges_all_fuel :
    ∀ fuel, assignSpanF (byId wCyc.spans) fuel wCycA ⟨[], 0⟩ = none := by
  intro fuel
  refine assign_cycle_none (byId wCyc.spans) ⟨[], 0⟩ wCycA wCycB rfl (by decide)
    rfl ?_ fuel wCycA Relation.ReflTransGen.refl
  exact Relation.ReflTransGen.single (ChainStep.mk wCycB wCycA rfl (by decide) rfl)

/-- Distinct keys, in order of first appearance: auxiliary fold invariant. -/
theorem dedupKeys_aux :
    ∀ (l acc : List String), acc.Nodup →
      (l.foldl (fun acc k => if acc.contains k then acc else acc ++ [k]) acc).Nodup ∧
      (∀ x ∈ acc, x ∈ l.foldl (fun acc k => if acc.contains k then acc else acc ++ [k]) acc) ∧
      (∀ x ∈ l, x ∈ l.foldl (fun acc k => if acc.contains k then acc else acc ++ [k]) acc) := by
  intro l
  induction l with
  | nil =>
    intro acc hacc
    exact ⟨hacc, fun x hx => hx, fun x hx => absurd hx (List.not_mem_nil x)⟩
  | cons k l' ihl =>
    intro acc hacc
    rw [List.foldl_cons]
    by_cases hc : acc.contains k
    · rw [if_pos hc]
      obtain ⟨h1, h2, h3⟩ := ihl acc hacc
      refine ⟨h1, h2, ?_⟩
      intro x hx
      rcases List.mem_cons.mp hx with rfl | hx'
      · exact h2 x (by simpa using hc)
      · exact h3 x hx'
    · rw [if_neg hc]
      have hkn : k ∉ acc := by simpa using hc
      have hacc' : (acc ++ [k]).Nodup := by
        rw [List.nodup_append]
        exact ⟨hacc, List.nodup_singleton k,
          fun a ha hak => hkn (by rwa [← List.mem_singleton.mp hak]) ⟩
      obtain ⟨h1, h2, h3⟩ := ihl (acc ++ [k]) hacc'
      refine ⟨h1, fun x hx => h2 x (List.mem_append_left _ hx), ?_⟩
      intro x hx
      rcases List.mem_cons.mp hx with rfl | hx'
      · exact h2 x (List.mem_append_right _ (List.mem_singleton.mpr rfl))
      · exact h3 x hx'

theorem dedupKeys_nodup (l : List String) : (dedupKeys l).Nodup :=
  (dedupKeys_aux l [] List.nodup_nil).1

theorem mem_dedupKeys (l : List String) : ∀ x ∈ l, x ∈ dedupKeys l :=
  (dedupKeys_aux l [] List.nodup_nil).2.2

/-- Grouping by key: concatenating the fibers over a duplicate-free cover of
the occurring keys is a permutation of the list. -/
theorem perm_join_filter {α : Type} (key : α → String) :
    ∀ (ks : List String) (l : List α), ks.Nodup →
      (∀ a ∈ l, key a ∈ ks) →
      ((ks.map fun b => l.filter fun a => key a == b).flatten).Perm l := by
  intro ks
  induction ks with
  | nil =>
    intro l _ hcov
    have hl : l = [] := List.eq_nil_iff_forall_not_mem.mpr
      (fun a ha => by simpa using hcov a ha)
    simp [hl]
  | cons b bs ihs =>
    intro l hks hcov
    rw [List.map_cons, List.flatten_cons]
    have htrans : (bs.map fun b2 => l.filter fun a => key a == b2) =
        bs.map fun b2 => (l.filter fun a => !(key a == b)).filter
          fun a => key a == b2 := by
      apply List.map_congr_left
      intro b2 hb2
      have hbb : b2 ≠ b := fun hh => (List.nodup_cons.mp hks).1 (hh ▸ hb2)
      rw [List.filter_filter]
      apply List.filter_congr
      intro a _
      cases hk : key a == b2 with
      | false => simp
      | true =>
        have : key a = b2 := by simpa using hk
        simp [this, hbb]
    rw [htrans]
    have hperm2 := ihs (l.filter fun a => !(key a == b)) (List.nodup_cons.mp hks).2
      (by
        intro a ha
        obtain ⟨hal, hpr⟩ := List.mem_filter.mp ha
        rcases List.mem_cons.mp (hcov a hal) with hb | hbs
        · rw [show (key a == b) = true by simpa using hb] at hpr
          exact absurd hpr (by simp)
        · exact hbs)
    exact (List.Perm.append_left _ hperm2).trans (List.filter_append_perm _ l)


/-- C2 (amended): whenever `assignSubtraces` terminates, its result is a
partition of the trace's spans: the concatenation of all groups is a
permutation of the input list, the group subtrace ids are pairwise distinct,
and groups with different subtrace ids share no span id. -/
theorem c2_partition (ts : TraceState) (tid : String) (l : List SubtraceState)
    (h : assignSubtraces ts tid = some l) :
    ((l.map fun g => g.spans).flatten).Perm ts.spans ∧
    (l.map fun g => g.subtraceID).Nodup ∧
    (∀ g1 ∈ l, ∀ g2 ∈ l, g1.subtraceID ≠ g2.subtraceID →
      ∀ e1 ∈ g1.spans, ∀ e2 ∈ g2.spans, e1.span.spanID ≠ e2.span.spanID) := by
  rw [assignSubtraces] at h
  cases hemp : ts.spans.isEmpty with
  | true =>
    rw [if_pos hemp] at h
    have hl : l = [] := (Option.some.inj h).symm
    subst hl
    have hsp : ts.spans = [] := by simpa using hemp
    refine ⟨by simp [hsp], List.nodup_nil, ?_⟩
    intro g1 hg1
    exact absurd hg1 (List.not_mem_nil g1)
  | false =>
    rw [if_neg (by simp [hemp])] at h
    cases hall : assignAll ts.spans with
    | none => rw [hall] at h; simp at h
    | some st =>
      rw [hall] at h
      have hl2 : l = (dedupKeys (ts.spans.map (strKey tid st))).map fun b =>
          ({ spans := ts.spans.filter fun e => strKey tid st e == b
             rootIdx := none
             subtraceID := b
             traceID := tid } : SubtraceState) := (Option.some.inj h).symm
      subst hl2
      refine ⟨?_, ?_, ?_⟩
      · have hsp1 : List.map (fun g => g.spans)
            ((dedupKeys (ts.spans.map (strKey tid st))).map fun b =>
              ({ spans := ts.spans.filter fun e => strKey tid st e == b
                 rootIdx := none
                 subtraceID := b
                 traceID := tid } : SubtraceState)) =
            (dedupKeys (ts.spans.map (strKey tid st))).map fun b =>
              ts.spans.filter fun e => strKey tid st e == b := by
          rw [List.map_map]
          rfl
        rw [hsp1]
        exact perm_join_filter (strKey tid st) _ ts.spans (dedupKeys_nodup _)
          (fun a ha => mem_dedupKeys _ _ (List.mem_map_of_mem _ ha))
      · have hids : List.map (fun g => g.subtraceID)
            ((dedupKeys (ts.spans.map (strKey tid st))).map fun b =>
              ({ spans := ts.spans.filter fun e => strKey tid st e == b
                 rootIdx := none
                 subtraceID := b
                 traceID := tid } : SubtraceState)) =
            dedupKeys (ts.spans.map (strKey tid st)) := by
          rw [List.map_map]
          exact List.map_id _
        rw [hids]
        exact dedupKeys_nodup _
      · intro g1 hg1 g2 hg2 hne e1 he1 e2 he2 heq
        obtain ⟨b1, hb1, hg1e⟩ := List.mem_map.mp hg1
        obtain ⟨b2, hb2, hg2e⟩ := List.mem_map.mp hg2
        subst hg1e
        subst hg2e
        obtain ⟨hm1, hp1⟩ := List.mem_filter.mp he1
        obtain ⟨hm2, hp2⟩ := List.mem_filter.mp he2
        have hk1 : strKey tid st e1 = b1 := by simpa using hp1
        have hk2 : strKey tid st e2 = b2 := by simpa using hp2
        have hss : strKey tid st e1 = strKey tid st e2 := by
          unfold strKey
          rw [heq]
        apply hne
        show b1 = b2
        rw [← hk1, hss, hk2]

theorem c2_partition_witness :
    assignSubtraces wTraceA "t" = some ((assignSubtraces wTraceA "t").getD []) ∧
    (((assignSubtraces wTraceA "t").getD []).map fun g => g.subtraceID).Nodup :=
  ⟨rfl, (c2_partition wTraceA "t" ((assignSubtraces wTraceA "t").getD []) rfl).2.1⟩


/-! ### Condition evaluator: anchored-match computation lemmas -/

theorem stripLit_append : ∀ (lit rest : List Char),
    stripLit lit (lit ++ rest) = some rest := by
  intro lit
  induction lit with
  | nil => intro rest; rfl
  | cons c cs ih =>
    intro rest
    simp [stripLit, ih]

theorem stripLit_head : ∀ (lit m r : List Char),
    stripLit lit m = some r → lit <+: m := by
  intro lit
  induction lit with
  | nil => intro m r _; exact List.nil_prefix
  | cons c cs ih =>
    intro m r h
    cases m with
    | nil => exact Option.noConfusion h
    | cons x xs =>
      rw [stripLit] at h
      by_cases hx : x = c
      · rw [if_pos hx] at h
        obtain ⟨t, ht⟩ := ih xs r h
        exact ⟨t, by rw [← hx, List.cons_append, ht]⟩
      · rw [if_neg hx] at h
        exact Option.noConfusion h

theorem takeWhile_append_stop (p : Char → Bool) :
    ∀ (xs : List Char) (y : Char) (rest : List Char),
      (∀ c ∈ xs, p c = true) → p y = false →
      (xs ++ y :: rest).takeWhile p = xs := by
  intro xs
  induction xs with
  | nil =>
    intro y rest _ hy
    simp [List.takeWhile_cons, hy]
  | cons x xs2 ih =>
    intro y rest hall hy
    rw [List.cons_append, List.takeWhile_cons,
      hall x (List.mem_cons_self x xs2)]
    simp [ih y rest (fun c hc => hall c (List.mem_cons_of_mem x hc)) hy]

theorem takeKey_exact (k : String) (hk : k ≠ "") (hkq : '"' ∉ k.data)
    (rest : List Char) :
    takeKey (k.data ++ '"' :: rest) = some (k, '"' :: rest) := by
  have htw : (k.data ++ '"' :: rest).takeWhile (fun c => decide (c ≠ '"')) = k.data := by
    apply takeWhile_append_stop
    · intro c hc
      simp only [decide_eq_true_iff]
      intro hcq
      exact hkq (hcq ▸ hc)
    · simp
  rw [takeKey]
  simp only [htw]
  have hne : k.data.isEmpty = false := by
    cases k with
    | mk d =>
      cases d with
      | nil => exact absurd rfl hk
      | cons a l => rfl
  rw [if_neg (by simp [hne])]
  rw [List.drop_left]

theorem scanFor_head_some {α : Type} (f : List Char → Option α) (l : List Char)
    (r : α) (h : f l = some r) : scanFor f l = some r := by
  cases l with
  | nil => rw [scanFor]; exact h
  | cons c rest => rw [scanFor, h]

theorem scanFor_eq_none {α : Type} (f : List Char → Option α) :
    ∀ (l : List Char), (∀ m, m <:+ l → f m = none) → scanFor f l = none := by
  intro l
  induction l with
  | nil =>
    intro h
    rw [scanFor]
    exact h [] (List.suffix_refl [])
  | cons c rest ih =>
    intro h
    rw [scanFor, h (c :: rest) (List.suffix_refl _)]
    exact ih fun m hm => h m (hm.trans (List.suffix_cons c rest))


theorem matchAtomHead_exact (neq : Bool) (k : String) (hk : k ≠ "")
    (hkq : '"' ∉ k.data) (rest : List Char)
    (hrest : rest.dropWhile isWsChar = rest) :
    matchAtomHead neq ("attributes[\"".data ++ (k.data ++ ('"' :: ']' :: ' ' ::
      (if neq then '!' else '=') :: '=' :: ' ' :: rest))) = some (k, rest) := by
  cases neq with
  | true =>
    rw [matchAtomHead, stripLit_append, Option.some_bind]
    simp only [eq_self_iff_true, if_true]
    rw [takeKey_exact k hk hkq (']' :: ' ' :: '!' :: '=' :: ' ' :: rest),
      Option.some_bind]
    simp [stripLit, isWsChar, hrest]
  | false =>
    rw [matchAtomHead, stripLit_append, Option.some_bind]
    simp only [Bool.false_eq_true, if_false]
    rw [takeKey_exact k hk hkq (']' :: ' ' :: '=' :: '=' :: ' ' :: rest),
      Option.some_bind]
    simp [stripLit, isWsChar, hrest]

theorem matchAtomHead_head (neq : Bool) (m : List Char) (kr : String × List Char)
    (h : matchAtomHead neq m = some kr) : "attributes[\"".data <+: m := by
  rw [matchAtomHead] at h
  cases h1 : stripLit "attributes[\"".data m with
  | none => rw [h1] at h; exact Option.noConfusion h
  | some r1 => exact stripLit_head _ m r1 h1

theorem tryNilCmp_head (neq : Bool) (m : List Char) (k : String)
    (h : tryNilCmp neq m = some k) : "attributes[\"".data <+: m := by
  rw [tryNilCmp] at h
  cases h1 : matchAtomHead neq m with
  | none => rw [h1] at h; exact Option.noConfusion h
  | some kr => exact matchAtomHead_head neq m kr h1

theorem tryStrCmp_head (neq : Bool) (m : List Char) (kv : String × String)
    (h : tryStrCmp neq m = some kv) : "attributes[\"".data <+: m := by
  rw [tryStrCmp] at h
  cases h1 : matchAtomHead neq m with
  | none => rw [h1] at h; exact Option.noConfusion h
  | some kr => exact matchAtomHead_head neq m kr h1

theorem tryBoolCmp_head (m : List Char) (kb : String × Bool)
    (h : tryBoolCmp m = some kb) : "attributes[\"".data <+: m := by
  rw [tryBoolCmp] at h
  cases h1 : matchAtomHead false m with
  | none => rw [h1] at h; exact Option.noConfusion h
  | some kr => exact matchAtomHead_head false m kr h1

/-- The head literal occurs only at position 0 when `[` does not occur
beyond it. -/
theorem suffix_head_unique (tail m : List Char)
    (htail : '[' ∉ tail) (hm : m <:+ ("attributes[\"".data ++ tail))
    (hpre : "attributes[\"".data <+: m) :
    m = "attributes[\"".data ++ tail := by
  obtain ⟨pre, hpre_eq⟩ := hm
  obtain ⟨m2, hm2⟩ := hpre
  have hidx : (pre ++ m)[pre.length + 10]? = some '[' := by
    rw [List.getElem?_append_right (by omega)]
    have h10 : pre.length + 10 - pre.length = 10 := by omega
    rw [h10, ← hm2]
    rw [List.getElem?_append_left (by decide)]
    rfl
  have huniq : ∀ i, ("attributes[\"".data ++ tail)[i]? = some '[' → i = 10 := by
    intro i hi
    by_cases hlt : i < 12
    · rw [List.getElem?_append_left (by simpa using hlt)] at hi
      exact (by decide :
        ∀ j, j < 12 → "attributes[\"".data[j]? = some '[' → j = 10) i hlt hi
    · have hL : ("attributes[\"".data.length) = 12 := rfl
      rw [List.getElem?_append_right (by omega)] at hi
      exact absurd (List.getElem?_mem hi) htail
  rw [hpre_eq] at hidx
  have hlen : pre.length = 0 := by
    have := huniq _ hidx
    omega
  rw [List.eq_nil_of_length_eq_zero hlen, List.nil_append] at hpre_eq
  exact hpre_eq

/-- For a matcher that requires the head literal, scanning a head-exact
string (no stray `[`) is the same as matching at position 0. -/
theorem scanFor_head_only {α : Type} (f : List Char → Option α) (tail : List Char)
    (htail : '[' ∉ tail)
    (hhead : ∀ m r, f m = some r → "attributes[\"".data <+: m) :
    scanFor f ("attributes[\"".data ++ tail) = f ("attributes[\"".data ++ tail) := by
  cases hf : f ("attributes[\"".data ++ tail) with
  | some r => exact scanFor_head_some f _ r hf
  | none =>
    apply scanFor_eq_none
    intro m hm
    cases hfm : f m with
    | none => rfl
    | some r =>
      have hme := suffix_head_unique tail m htail hm (hhead m r hfm)
      rw [hme] at hfm
      rw [hf] at hfm
      exact Option.noConfusion hfm


theorem tryNilCmp_exact (neq : Bool) (k : String) (hk : k ≠ "")
    (hkq : '"' ∉ k.data) :
    tryNilCmp neq ("attributes[\"".data ++ (k.data ++ ('"' :: ']' :: ' ' ::
      (if neq then '!' else '=') :: '=' :: ' ' :: "nil".data))) = some k := by
  rw [tryNilCmp, matchAtomHead_exact neq k hk hkq "nil".data rfl, Option.some_bind]
  rfl

theorem tryNilCmp_rest_none (neq : Bool) (k : String) (hk : k ≠ "")
    (hkq : '"' ∉ k.data) (rest : List Char)
    (hrest : rest.dropWhile isWsChar = rest)
    (hnil : stripLit "nil".data rest = none) :
    tryNilCmp neq ("attributes[\"".data ++ (k.data ++ ('"' :: ']' :: ' ' ::
      (if neq then '!' else '=') :: '=' :: ' ' :: rest))) = none := by
  rw [tryNilCmp, matchAtomHead_exact neq k hk hkq rest hrest, Option.some_bind, hnil]
  rfl

theorem matchAtomHead_mm_ne (k : String) (hk : k ≠ "") (hkq : '"' ∉ k.data)
    (rest : List Char) :
    matchAtomHead true ("attributes[\"".data ++ (k.data ++ ('"' :: ']' :: ' ' ::
      '=' :: '=' :: ' ' :: rest))) = none := by
  rw [matchAtomHead, stripLit_append, Option.some_bind,
    takeKey_exact k hk hkq (']' :: ' ' :: '=' :: '=' :: ' ' :: rest), Option.some_bind]
  simp [stripLit, isWsChar]

theorem matchAtomHead_mm_eq (k : String) (hk : k ≠ "") (hkq : '"' ∉ k.data)
    (rest : List Char) :
    matchAtomHead false ("attributes[\"".data ++ (k.data ++ ('"' :: ']' :: ' ' ::
      '!' :: '=' :: ' ' :: rest))) = none := by
  rw [matchAtomHead, stripLit_append, Option.some_bind,
    takeKey_exact k hk hkq (']' :: ' ' :: '!' :: '=' :: ' ' :: rest), Option.some_bind]
  simp [stripLit, isWsChar]

theorem tryNilCmp_none (neq : Bool) (l : List Char)
    (h : matchAtomHead neq l = none) : tryNilCmp neq l = none := by
  rw [tryNilCmp, h]
  rfl

theorem tryStrCmp_none (neq : Bool) (l : List Char)
    (h : matchAtomHead neq l = none) : tryStrCmp neq l = none := by
  rw [tryStrCmp, h]
  rfl

theorem tryBoolCmp_none (l : List Char)
    (h : matchAtomHead false l = none) : tryBoolCmp l = none := by
  rw [tryBoolCmp, h]
  rfl

theorem tryStrCmp_exact (neq : Bool) (k s : String) (hk : k ≠ "")
    (hkq : '"' ∉ k.data) (hsq : '"' ∉ s.data) :
    tryStrCmp neq ("attributes[\"".data ++ (k.data ++ ('"' :: ']' :: ' ' ::
      (if neq then '!' else '=') :: '=' :: ' ' :: '"' :: (s.data ++ ['"'])))) =
      some (k, s) := by
  rw [tryStrCmp, matchAtomHead_exact neq k hk hkq ('"' :: (s.data ++ ['"'])) rfl,
    Option.some_bind]
  have htw : (s.data ++ ['"']).takeWhile (fun c => c ≠ '"') = s.data := by
    apply takeWhile_append_stop
    · intro c hc
      simp only [decide_eq_true_iff]
      intro hcq
      exact hsq (hcq ▸ hc)
    · simp
  simp only [htw, List.drop_left]

theorem tryBoolCmp_exact_true (k : String) (hk : k ≠ "") (hkq : '"' ∉ k.data) :
    tryBoolCmp ("attributes[\"".data ++ (k.data ++ ('"' :: ']' :: ' ' ::
      '=' :: '=' :: ' ' :: "true".data))) = some (k, true) := by
  have hm := matchAtomHead_exact false k hk hkq "true".data rfl
  rw [tryBoolCmp]
  rw [show (if false then '!' else '=') = '=' from rfl] at hm
  rw [hm, Option.some_bind]
  rfl

theorem tryBoolCmp_exact_false (k : String) (hk : k ≠ "") (hkq : '"' ∉ k.data) :
    tryBoolCmp ("attributes[\"".data ++ (k.data ++ ('"' :: ']' :: ' ' ::
      '=' :: '=' :: ' ' :: "false".data))) = some (k, false) := by
  have hm := matchAtomHead_exact false k hk hkq "false".data rfl
  rw [tryBoolCmp]
  rw [show (if false then '!' else '=') = '=' from rfl] at hm
  rw [hm, Option.some_bind]
  rfl


theorem scan_ne_nil_on_eq (k : String) (hk : k ≠ "") (hkq : '"' ∉ k.data)
    (hkb : '[' ∉ k.data) (rest : List Char) (hrb : '[' ∉ rest) :
    scanFor (tryNilCmp true) ("attributes[\"".data ++ (k.data ++
      ('"' :: ']' :: ' ' :: '=' :: '=' :: ' ' :: rest))) = none := by
  have htail : '[' ∉ k.data ++ ('"' :: ']' :: ' ' :: '=' :: '=' :: ' ' :: rest) := by
    intro hmem
    rcases List.mem_append.mp hmem with h | h
    · exact hkb h
    · simp at h
      exact hrb h
  rw [scanFor_head_only (tryNilCmp true) _ htail
    (fun m r hr => tryNilCmp_head true m r hr)]
  exact tryNilCmp_none true _ (matchAtomHead_mm_ne k hk hkq rest)

theorem scan_eq_nil_on_ne (k : String) (hk : k ≠ "") (hkq : '"' ∉ k.data)
    (hkb : '[' ∉ k.data) (rest : List Char) (hrb : '[' ∉ rest) :
    scanFor (tryNilCmp false) ("attributes[\"".data ++ (k.data ++
      ('"' :: ']' :: ' ' :: '!' :: '=' :: ' ' :: rest))) = none := by
  have htail : '[' ∉ k.data ++ ('"' :: ']' :: ' ' :: '!' :: '=' :: ' ' :: rest) := by
    intro hmem
    rcases List.mem_append.mp hmem with h | h
    · exact hkb h
    · simp at h
      exact hrb h
  rw [scanFor_head_only (tryNilCmp false) _ htail
    (fun m r hr => tryNilCmp_head false m r hr)]
  exact tryNilCmp_none false _ (matchAtomHead_mm_eq k hk hkq rest)

theorem scan_eq_str_on_ne (k : String) (hk : k ≠ "") (hkq : '"' ∉ k.data)
    (hkb : '[' ∉ k.data) (rest : List Char) (hrb : '[' ∉ rest) :
    scanFor (tryStrCmp false) ("attributes[\"".data ++ (k.data ++
      ('"' :: ']' :: ' ' :: '!' :: '=' :: ' ' :: rest))) = none := by
  have htail : '[' ∉ k.data ++ ('"' :: ']' :: ' ' :: '!' :: '=' :: ' ' :: rest) := by
    intro hmem
    rcases List.mem_append.mp hmem with h | h
    · exact hkb h
    · simp at h
      exact hrb h
  rw [scanFor_head_only (tryStrCmp false) _ htail
    (fun m r hr => tryStrCmp_head false m r hr)]
  exact tryStrCmp_none false _ (matchAtomHead_mm_eq k hk hkq rest)

theorem scan_ne_str_on_eq (k : String) (hk : k ≠ "") (hkq : '"' ∉ k.data)
    (hkb : '[' ∉ k.data) (rest : List Char) (hrb : '[' ∉ rest) :
    scanFor (tryStrCmp true) ("attributes[\"".data ++ (k.data ++
      ('"' :: ']' :: ' ' :: '=' :: '=' :: ' ' :: rest))) = none := by
  have htail : '[' ∉ k.data ++ ('"' :: ']' :: ' ' :: '=' :: '=' :: ' ' :: rest) := by
    intro hmem
    rcases List.mem_append.mp hmem with h | h
    · exact hkb h
    · simp at h
      exact hrb h
  rw [scanFor_head_only (tryStrCmp true) _ htail
    (fun m r hr => tryStrCmp_head true m r hr)]
  exact tryStrCmp_none true _ (matchAtomHead_mm_ne k hk hkq rest)

theorem scan_nil_bad_rest (neq : Bool) (k : String) (hk : k ≠ "")
    (hkq : '"' ∉ k.data) (hkb : '[' ∉ k.data) (rest : List Char)
    (hrb : '[' ∉ rest) (hrest : rest.dropWhile isWsChar = rest)
    (hnil : stripLit "nil".data rest = none) :
    scanFor (tryNilCmp neq) ("attributes[\"".data ++ (k.data ++
      ('"' :: ']' :: ' ' :: (if neq then '!' else '=') :: '=' :: ' ' :: rest))) =
      none := by
  have htail : '[' ∉ k.data ++
      ('"' :: ']' :: ' ' :: (if neq then '!' else '=') :: '=' :: ' ' :: rest) := by
    intro hmem
    rcases List.mem_append.mp hmem with h | h
    · exact hkb h
    · cases neq <;> simp at h <;> exact hrb h
  rw [scanFor_head_only (tryNilCmp neq) _ htail
    (fun m r hr => tryNilCmp_head neq m r hr)]
  exact tryNilCmp_rest_none neq k hk hkq rest hrest hnil

theorem scan_eq_str_bad_true (k : String) (hk : k ≠ "") (hkq : '"' ∉ k.data)
    (hkb : '[' ∉ k.data) :
    scanFor (tryStrCmp false) ("attributes[\"".data ++ (k.data ++
      ('"' :: ']' :: ' ' :: '=' :: '=' :: ' ' :: "true".data))) = none := by
  have htail : '[' ∉ k.data ++ ('"' :: ']' :: ' ' :: '=' :: '=' :: ' ' :: "true".data) := by
    intro hmem
    rcases List.mem_append.mp hmem with h | h
    · exact hkb h
    · simp at h
  rw [scanFor_head_only (tryStrCmp false) _ htail
    (fun m r hr => tryStrCmp_head false m r hr)]
  have hm := matchAtomHead_exact false k hk hkq "true".data rfl
  rw [show (if false then '!' else '=') = '=' from rfl] at hm
  rw [tryStrCmp, hm, Option.some_bind]
  rfl

theorem scan_eq_str_bad_false (k : String) (hk : k ≠ "") (hkq : '"' ∉ k.data)
    (hkb : '[' ∉ k.data) :
    scanFor (tryStrCmp false) ("attributes[\"".data ++ (k.data ++
      ('"' :: ']' :: ' ' :: '=' :: '=' :: ' ' :: "false".data))) = none := by
  have htail : '[' ∉ k.data ++ ('"' :: ']' :: ' ' :: '=' :: '=' :: ' ' :: "false".data) := by
    intro hmem
    rcases List.mem_append.mp hmem with h | h
    · exact hkb h
    · simp at h
  rw [scanFor_head_only (tryStrCmp false) _ htail
    (fun m r hr => tryStrCmp_head false m r hr)]
  have hm := matchAtomHead_exact false k hk hkq "false".data rfl
  rw [show (if false then '!' else '=') = '=' from rfl] at hm
  rw [tryStrCmp, hm, Option.some_bind]
  rfl


/-- C8 counterexample: on attributes where `k` holds the integer 5, the
condition `attributes["k"] == false` evaluates to true (the evaluator compares
the Go zero value `Bool()` of the non-boolean attribute), although the claim
and spec require the key to exist *with that boolean value*. -/
theorem c8_bool_atom_type_confusion :
    evaluateCondition [("k", AnyValue.intV 5)] "attributes[\"k\"] == false" = true ∧
    ¬specBoolAtomHolds [("k", AnyValue.intV 5)] "k" false := by
  constructor
  · rfl
  · intro h
    have h2 : some (AnyValue.intV 5) = some (AnyValue.boolV false) := h
    exact AnyValue.noConfusion (Option.some.inj h2)

/-- C8 (amended): exact-form condition atoms evaluate as follows.  `!= nil`
holds iff the key exists and `== nil` iff it is absent; `== "s"` holds iff the
key exists and its *string field* (the Go zero value `""` for non-string
values) equals `s`, `!= "s"` iff the key is absent or its string field
differs; `== true/false` holds iff the key exists and its *boolean field*
(zero value `false` for non-boolean values) matches; a condition in which no
pattern matches anywhere evaluates permissively to true. -/
theorem c8_condition_semantics (attrs : AttrMap) (k s : String)
    (hk : k ≠ "") (hkq : '"' ∉ k.data) (hkb : '[' ∉ k.data)
    (hsq : '"' ∉ s.data) (hsb : '[' ∉ s.data) :
    (evaluateSingleCondition attrs ("attributes[\"" ++ k ++ "\"] != nil") = true ↔
      ∃ v, attrs.get k = some v) ∧
    (evaluateSingleCondition attrs ("attributes[\"" ++ k ++ "\"] == nil") = true ↔
      attrs.get k = none) ∧
    (evaluateSingleCondition attrs ("attributes[\"" ++ k ++ "\"] == \"" ++ s ++ "\"") = true ↔
      ∃ v, attrs.get k = some v ∧ v.strField = s) ∧
    (evaluateSingleCondition attrs ("attributes[\"" ++ k ++ "\"] != \"" ++ s ++ "\"") = true ↔
      attrs.get k = none ∨ ∃ v, attrs.get k = some v ∧ v.strField ≠ s) ∧
    (∀ b : Bool, evaluateSingleCondition attrs
        ("attributes[\"" ++ k ++ "\"] == " ++ (if b then "true" else "false")) = true ↔
      ∃ v, attrs.get k = some v ∧ v.boolField = b) ∧
    (∀ c : String, scanFor (tryNilCmp true) c.data = none →
      scanFor (tryNilCmp false) c.data = none →
      scanFor (tryStrCmp false) c.data = none →
      scanFor (tryStrCmp true) c.data = none →
      scanFor tryBoolCmp c.data = none →
      evaluateSingleCondition attrs c = true) := by
  refine ⟨?_, ?_, ?_, ?_, ?_, ?_⟩
  · -- != nil
    have hd : ("attributes[\"" ++ k ++ "\"] != nil").data =
        "attributes[\"".data ++ (k.data ++
          ('"' :: ']' :: ' ' :: '!' :: '=' :: ' ' :: "nil".data)) := rfl
    have h1 : scanFor (tryNilCmp true) ("attributes[\"".data ++ (k.data ++
        ('"' :: ']' :: ' ' :: '!' :: '=' :: ' ' :: "nil".data))) = some k :=
      scanFor_head_some _ _ k (tryNilCmp_exact true k hk hkq)
    unfold evaluateSingleCondition
    rw [hd]
    simp only [h1]
    exact Option.isSome_iff_exists
  · -- == nil
    have hd : ("attributes[\"" ++ k ++ "\"] == nil").data =
        "attributes[\"".data ++ (k.data ++
          ('"' :: ']' :: ' ' :: '=' :: '=' :: ' ' :: "nil".data)) := rfl
    have h1 : scanFor (tryNilCmp true) ("attributes[\"".data ++ (k.data ++
        ('"' :: ']' :: ' ' :: '=' :: '=' :: ' ' :: "nil".data))) = none :=
      scan_ne_nil_on_eq k hk hkq hkb "nil".data (by simp)
    have h2 : scanFor (tryNilCmp false) ("attributes[\"".data ++ (k.data ++
        ('"' :: ']' :: ' ' :: '=' :: '=' :: ' ' :: "nil".data))) = some k :=
      scanFor_head_some _ _ k (tryNilCmp_exact false k hk hkq)
    unfold evaluateSingleCondition
    rw [hd]
    simp only [h1, h2]
    cases hg : attrs.get k <;> simp
  · -- == "s"
    have hd : ("attributes[\"" ++ k ++ "\"] == \"" ++ s ++ "\"").data =
        "attributes[\"".data ++ (k.data ++
          ('"' :: ']' :: ' ' :: '=' :: '=' :: ' ' :: '"' :: (s.data ++ ['"']))) := by
      simp only [String.data_append, List.append_assoc]
      rfl
    have hrb : '[' ∉ '"' :: (s.data ++ ['"']) := by
      intro hm
      simp at hm
      exact hsb hm
    have h1 : scanFor (tryNilCmp true) ("attributes[\"".data ++ (k.data ++
        ('"' :: ']' :: ' ' :: '=' :: '=' :: ' ' :: '"' :: (s.data ++ ['"'])))) = none :=
      scan_ne_nil_on_eq k hk hkq hkb ('"' :: (s.data ++ ['"'])) hrb
    have h2 : scanFor (tryNilCmp false) ("attributes[\"".data ++ (k.data ++
        ('"' :: ']' :: ' ' :: '=' :: '=' :: ' ' :: '"' :: (s.data ++ ['"'])))) = none :=
      scan_nil_bad_rest false k hk hkq hkb ('"' :: (s.data ++ ['"'])) hrb rfl rfl
    have h3 : scanFor (tryStrCmp false) ("attributes[\"".data ++ (k.data ++
        ('"' :: ']' :: ' ' :: '=' :: '=' :: ' ' :: '"' :: (s.data ++ ['"'])))) =
        some (k, s) :=
      scanFor_head_some _ _ _ (tryStrCmp_exact false k s hk hkq hsq)
    unfold evaluateSingleCondition
    rw [hd]
    simp only [h1, h2, h3]
    cases hg : attrs.get k <;> simp [beq_iff_eq]
  · -- != "s"
    have hd : ("attributes[\"" ++ k ++ "\"] != \"" ++ s ++ "\"").data =
        "attributes[\"".data ++ (k.data ++
          ('"' :: ']' :: ' ' :: '!' :: '=' :: ' ' :: '"' :: (s.data ++ ['"']))) := by
      simp only [String.data_append, List.append_assoc]
      rfl
    have hrb : '[' ∉ '"' :: (s.data ++ ['"']) := by
      intro hm
      simp at hm
      exact hsb hm
    have h1 : scanFor (tryNilCmp true) ("attributes[\"".data ++ (k.data ++
        ('"' :: ']' :: ' ' :: '!' :: '=' :: ' ' :: '"' :: (s.data ++ ['"'])))) = none :=
      scan_nil_bad_rest true k hk hkq hkb ('"' :: (s.data ++ ['"'])) hrb rfl rfl
    have h2 : scanFor (tryNilCmp false) ("attributes[\"".data ++ (k.data ++
        ('"' :: ']' :: ' ' :: '!' :: '=' :: ' ' :: '"' :: (s.data ++ ['"'])))) = none :=
      scan_eq_nil_on_ne k hk hkq hkb ('"' :: (s.data ++ ['"'])) hrb
    have h3 : scanFor (tryStrCmp false) ("attributes[\"".data ++ (k.data ++
        ('"' :: ']' :: ' ' :: '!' :: '=' :: ' ' :: '"' :: (s.data ++ ['"'])))) = none :=
      scan_eq_str_on_ne k hk hkq hkb ('"' :: (s.data ++ ['"'])) hrb
    have h4 : scanFor (tryStrCmp true) ("attributes[\"".data ++ (k.data ++
        ('"' :: ']' :: ' ' :: '!' :: '=' :: ' ' :: '"' :: (s.data ++ ['"'])))) =
        some (k, s) :=
      scanFor_head_some _ _ _ (tryStrCmp_exact true k s hk hkq hsq)
    unfold evaluateSingleCondition
    rw [hd]
    simp only [h1, h2, h3, h4]
    cases hg : attrs.get k <;> simp [bne_iff_ne]
  · -- == true/false
    intro b
    cases b with
    | true =>
      have hd : ("attributes[\"" ++ k ++ "\"] == " ++
          (if (true : Bool) then "true" else "false")).data =
          "attributes[\"".data ++ (k.data ++
            ('"' :: ']' :: ' ' :: '=' :: '=' :: ' ' :: "true".data)) := by
        simp only [String.data_append, List.append_assoc]
        rfl
      have h1 : scanFor (tryNilCmp true) ("attributes[\"".data ++ (k.data ++
          ('"' :: ']' :: ' ' :: '=' :: '=' :: ' ' :: "true".data))) = none :=
        scan_ne_nil_on_eq k hk hkq hkb "true".data (by simp)
      have h2 : scanFor (tryNilCmp false) ("attributes[\"".data ++ (k.data ++
          ('"' :: ']' :: ' ' :: '=' :: '=' :: ' ' :: "true".data))) = none :=
        scan_nil_bad_rest false k hk hkq hkb "true".data (by simp) rfl rfl
      have h3 : scanFor (tryStrCmp false) ("attributes[\"".data ++ (k.data ++
          ('"' :: ']' :: ' ' :: '=' :: '=' :: ' ' :: "true".data))) = none :=
        scan_eq_str_bad_true k hk hkq hkb
      have h4 : scanFor (tryStrCmp true) ("attributes[\"".data ++ (k.data ++
          ('"' :: ']' :: ' ' :: '=' :: '=' :: ' ' :: "true".data))) = none :=
        scan_ne_str_on_eq k hk hkq hkb "true".data (by simp)
      have h5 : scanFor tryBoolCmp ("attributes[\"".data ++ (k.data ++
          ('"' :: ']' :: ' ' :: '=' :: '=' :: ' ' :: "true".data))) =
          some (k, true) :=
        scanFor_head_some _ _ _ (tryBoolCmp_exact_true k hk hkq)
      unfold evaluateSingleCondition
      rw [hd]
      simp only [h1, h2, h3, h4, h5]
      cases hg : attrs.get k <;> simp [beq_iff_eq]
    | false =>
      have hd : ("attributes[\"" ++ k ++ "\"] == " ++
          (if (false : Bool) then "true" else "false")).data =
          "attributes[\"".data ++ (k.data ++
            ('"' :: ']' :: ' ' :: '=' :: '=' :: ' ' :: "false".data)) := by
        simp only [String.data_append, List.append_assoc]
        rfl
      have h1 : scanFor (tryNilCmp true) ("attributes[\"".data ++ (k.data ++
          ('"' :: ']' :: ' ' :: '=' :: '=' :: ' ' :: "false".data))) = none :=
        scan_ne_nil_on_eq k hk hkq hkb "false".data (by simp)
      have h2 : scanFor (tryNilCmp false) ("attributes[\"".data ++ (k.data ++
          ('"' :: ']' :: ' ' :: '=' :: '=' :: ' ' :: "false".data))) = none :=
        scan_nil_bad_rest false k hk hkq hkb "false".data (by simp) rfl rfl
      have h3 : scanFor (tryStrCmp false) ("attributes[\"".data ++ (k.data ++
          ('"' :: ']' :: ' ' :: '=' :: '=' :: ' ' :: "false".data))) = none :=
        scan_eq_str_bad_false k hk hkq hkb
      have h4 : scanFor (tryStrCmp true) ("attributes[\"".data ++ (k.data ++
          ('"' :: ']' :: ' ' :: '=' :: '=' :: ' ' :: "false".data))) = none :=
        scan_ne_str_on_eq k hk hkq hkb "false".data (by simp)
      have h5 : scanFor tryBoolCmp ("attributes[\"".data ++ (k.data ++
          ('"' :: ']' :: ' ' :: '=' :: '=' :: ' ' :: "false".data))) =
          some (k, false) :=
        scanFor_head_some _ _ _ (tryBoolCmp_exact_false k hk hkq)
      unfold evaluateSingleCondition
      rw [hd]
      simp only [h1, h2, h3, h4, h5]
      cases hg : attrs.get k <;> simp [beq_iff_eq]
  · -- unknown pattern
    intro c h1 h2 h3 h4 h5
    unfold evaluateSingleCondition
    simp only [h1, h2, h3, h4, h5]

theorem c8_condition_semantics_witness :
    ("k" : String) ≠ "" ∧ '"' ∉ ("k" : String).data ∧ '[' ∉ ("k" : String).data ∧
    '"' ∉ ("v" : String).data ∧ '[' ∉ ("v" : String).data ∧
    (evaluateSingleCondition [("k", AnyValue.str "x")]
        ("attributes[\"" ++ "k" ++ "\"] != nil") = true ↔
      ∃ v, AttrMap.get [("k", AnyValue.str "x")] "k" = some v) :=
  ⟨by decide, by decide, by decide, by decide, by decide,
    (c8_condition_semantics [("k", AnyValue.str "x")] "k" "v" (by decide) (by decide)
      (by decide) (by decide) (by decide)).1⟩

end Subtrace